import Mathlib

/-!
Verification of the conversation-memory and context-assembly engine of the
discord_llm_bot repository.

The embedding models `src/models/memory.py` (class `MemoryManager`, both the
sqlite and the json storage variants) and the deterministic message-assembly
part of `src/models/llm.py` (`LLMClient.generate_response` together with
`_enhance_system_prompt_with_usernames`), plus the static personality registry
of `src/utils/config.py`.

Modelling conventions:
  - Python wall-clock timestamps (`datetime.now().isoformat()`) are abstracted
    as natural-number ticks drawn from a per-store monotone clock; an operation
    samples the current clock value for its timestamps and leaves the clock
    strictly larger whenever it wrote.  Consecutive samples are strictly
    increasing, which models ISO timestamps faithfully up to the (unspecified
    in sqlite) tie-breaking of equal wall-clock strings.
  - Python dicts are insertion-ordered association lists with unique keys:
    lookup finds the first binding, assignment to an existing key rewrites it
    in place, assignment to a fresh key appends, `del` removes the key.
  - JSON-serializable Python values are `JVal`; the constructor `JVal.jnull`
    also stands for Python `None` (in Python the two are the same object,
    which is exactly what the metadata claims are about).
  - `MAX_CONTEXT_LENGTH` is environment-configurable (default 10), so the
    storage operations take it as an explicit parameter `maxLen`.
-/

/-- JSON-serializable Python values; `jnull` is Python `None`. -/
inductive JVal where
  | jnull
  | jbool (b : Bool)
  | jint (n : Int)
  | jstr (s : String)
  | jarr (xs : List JVal)
  | jobj (kvs : List (String × JVal))

/-- Digits of a natural number, most significant first (for `json.dumps`). -/
def natDigits (n : Nat) : List Char :=
  (Nat.toDigits 10 n)

/-- Model of Python `json.dumps` for an integer. -/
def dumpsInt (n : Int) : String :=
  if n < 0 then "-" ++ ⟨natDigits n.natAbs⟩ else ⟨natDigits n.natAbs⟩

/-- Escape one character the way Python `json.dumps` escapes string content. -/
def escChar (c : Char) : List Char :=
  if c = '"' then ['\\', '"']
  else if c = '\\' then ['\\', '\\']
  else if c = '\n' then ['\\', 'n']
  else if c = '\t' then ['\\', 't']
  else if c = '\r' then ['\\', 'r']
  else [c]

/-- Model of Python `json.dumps` for a string literal (quotes and escapes). -/
def dumpsStr (s : String) : String :=
  "\"" ++ ⟨s.data.foldr (fun c acc => escChar c ++ acc) []⟩ ++ "\""

mutual

/-- Model of Python `json.dumps` with its default separators. -/
def pyDumps : JVal → String
  | .jnull => "null"
  | .jbool true => "true"
  | .jbool false => "false"
  | .jint n => dumpsInt n
  | .jstr s => dumpsStr s
  | .jarr xs => "[" ++ String.intercalate (", ") (pyDumpsList xs) ++ "]"
  | .jobj kvs => "\x7b" ++ String.intercalate (", ") (pyDumpsObj kvs) ++ "\x7d"

def pyDumpsList : List JVal → List String
  | [] => []
  | v :: vs => pyDumps v :: pyDumpsList vs

def pyDumpsObj : List (String × JVal) → List String
  | [] => []
  | kv :: kvs => (dumpsStr kv.1 ++ ": " ++ pyDumps kv.2) :: pyDumpsObj kvs

end

/-- Skip JSON whitespace. -/
def skipWs : List Char → List Char
  | c :: cs => if c = ' ' ∨ c = '\t' ∨ c = '\n' ∨ c = '\r' then skipWs cs else c :: cs
  | [] => []

/-- Leading decimal digits of a character stream. -/
def takeDigits : List Char → (List Char × List Char)
  | c :: cs =>
    if c.isDigit then
      let p := takeDigits cs
      (c :: p.1, p.2)
    else ([], c :: cs)
  | [] => ([], [])

/-- Numeric value of a digit list. -/
def digitsToNat (ds : List Char) : Nat :=
  ds.foldl (fun acc c => acc * 10 + (c.toNat - 48)) 0

/-- Hexadecimal value of one character, if any. -/
def hexVal (c : Char) : Option Nat :=
  if '0' ≤ c ∧ c ≤ '9' then some (c.toNat - 48)
  else if 'a' ≤ c ∧ c ≤ 'f' then some (c.toNat - 87)
  else if 'A' ≤ c ∧ c ≤ 'F' then some (c.toNat - 55)
  else none

mutual

/-- Fuel-indexed recursive-descent model of Python `json.loads` (one value). -/
def parseJ : Nat → List Char → Option (JVal × List Char)
  | 0, _ => none
  | Nat.succ fuel, input =>
    match skipWs input with
    | 'n' :: 'u' :: 'l' :: 'l' :: rest => some (.jnull, rest)
    | 't' :: 'r' :: 'u' :: 'e' :: rest => some (.jbool true, rest)
    | 'f' :: 'a' :: 'l' :: 's' :: 'e' :: rest => some (.jbool false, rest)
    | '"' :: rest =>
      match parseStr fuel rest with
      | some p => some (.jstr ⟨p.1⟩, p.2)
      | none => none
    | '[' :: rest =>
      (match skipWs rest with
       | ']' :: rest2 => some (.jarr [], rest2)
       | other =>
         match parseArrItems fuel other with
         | some p => some (.jarr p.1, p.2)
         | none => none)
    | '\x7b' :: rest =>
      (match skipWs rest with
       | '\x7d' :: rest2 => some (.jobj [], rest2)
       | other =>
         match parseObjItems fuel other with
         | some p => some (.jobj p.1, p.2)
         | none => none)
    | '-' :: rest =>
      (match takeDigits rest with
       | ([], _) => none
       | (ds, rest2) => some (.jint (-(digitsToNat ds : Int)), rest2))
    | c :: cs =>
      if c.isDigit then
        let p := takeDigits (c :: cs)
        some (.jint (digitsToNat p.1 : Int), p.2)
      else none
    | [] => none

/-- String body parser: characters until the closing quote. -/
def parseStr : Nat → List Char → Option (List Char × List Char)
  | 0, _ => none
  | Nat.succ fuel, input =>
    match input with
    | '"' :: rest => some ([], rest)
    | '\\' :: c :: rest =>
      if c = 'u' then
        match rest with
        | a :: b :: c2 :: d :: rest2 =>
          match hexVal a, hexVal b, hexVal c2, hexVal d with
          | some ha, some hb, some hc, some hd =>
            match parseStr fuel rest2 with
            | some p => some (Char.ofNat (((ha * 16 + hb) * 16 + hc) * 16 + hd) :: p.1, p.2)
            | none => none
          | _, _, _, _ => none
        | _ => none
      else
        let e : Option Char :=
          if c = '"' then some '"'
          else if c = '\\' then some '\\'
          else if c = '/' then some '/'
          else if c = 'n' then some '\n'
          else if c = 't' then some '\t'
          else if c = 'r' then some '\r'
          else if c = 'b' then some (Char.ofNat 8)
          else if c = 'f' then some (Char.ofNat 12)
          else none
        match e with
        | some ec =>
          (match parseStr fuel rest with
           | some p => some (ec :: p.1, p.2)
           | none => none)
        | none => none
    | c :: rest =>
      (match parseStr fuel rest with
       | some p => some (c :: p.1, p.2)
       | none => none)
    | [] => none

/-- Array items: value (`,` value)* `]`. -/
def parseArrItems : Nat → List Char → Option (List JVal × List Char)
  | 0, _ => none
  | Nat.succ fuel, input =>
    match parseJ fuel input with
    | none => none
    | some p =>
      match skipWs p.2 with
      | ',' :: rest =>
        (match parseArrItems fuel (skipWs rest) with
         | some q => some (p.1 :: q.1, q.2)
         | none => none)
      | ']' :: rest => some ([p.1], rest)
      | _ => none

/-- Object items: string `:` value (`,` string `:` value)* with closing brace. -/
def parseObjItems : Nat → List Char → Option (List (String × JVal) × List Char)
  | 0, _ => none
  | Nat.succ fuel, input =>
    match skipWs input with
    | '"' :: rest =>
      (match parseStr fuel rest with
       | none => none
       | some kp =>
         match skipWs kp.2 with
         | ':' :: rest2 =>
           (match parseJ fuel rest2 with
            | none => none
            | some vp =>
              match skipWs vp.2 with
              | ',' :: rest3 =>
                (match parseObjItems fuel rest3 with
                 | some q => some ((⟨kp.1⟩, vp.1) :: q.1, q.2)
                 | none => none)
              | '\x7d' :: rest3 => some ([(⟨kp.1⟩, vp.1)], rest3)
              | _ => none)
         | _ => none)
    | _ => none

end

/-- Model of Python `json.loads`: a full document with only trailing space. -/
def pyLoads (s : String) : Option JVal :=
  match parseJ (2 * s.length + 2) s.data with
  | some p => if skipWs p.2 = [] then some p.1 else none
  | none => none

/-- The sqlite variant reads metadata with `try: json.loads(v) except: v`. -/
def sqliteDecode (s : String) : JVal :=
  match pyLoads s with
  | some v => v
  | none => .jstr s

/-- Placeholder display name, Python `f"User_\x7buser_id[:8]\x7d"`. -/
def placeholderName (uid : String) : String :=
  "User_" ++ uid.take 8

/-- Python list slice `lst[-n:]` for a non-negative `n` (note `lst[-0:]` is
the whole list). -/
def pyLastSlice (n : Nat) (l : List α) : List α :=
  if n = 0 then l else l.drop (l.length - n)

/-- Python dict assignment `d[k] = v`: rewrite in place or append. -/
def dictSet [BEq κ] (d : List (κ × β)) (k : κ) (v : β) : List (κ × β) :=
  if (d.lookup k).isSome then d.map (fun e => if e.1 == k then (e.1, v) else e)
  else d ++ [(k, v)]

/-- Python dict deletion `del d[k]`. -/
def dictDel [BEq κ] (d : List (κ × β)) (k : κ) : List (κ × β) :=
  d.filter (fun e => !(e.1 == k))

/-- Default of the `MAX_CONTEXT_LENGTH` configuration entry. -/
def MAX_CONTEXT_LENGTH : Nat := 10

/-- A chat message as exchanged with the generator (a dict with role and
content in the source). -/
structure ChatMsg where
  role : String
  content : String
deriving DecidableEq, Repr

/-- A stored message of the json backend (`message_obj` in `add_message`). -/
structure Msg where
  role : String
  content : String
  timestamp : Nat
  username : String
deriving DecidableEq, Repr

/-- One user record of the json document store. -/
structure JsonUser where
  username : String
  personality : String
  messages : List Msg
  metadata : List (String × JVal)
  created_at : Nat
  updated_at : Nat

/-- The json document store: one aggregate record per user, plus the abstract
clock used to model `datetime.now()`. -/
structure JsonStore where
  data : List (String × JsonUser)
  clock : Nat

/-- A row of the sqlite `messages` table. -/
structure SRow where
  id : Nat
  user_id : String
  role : String
  content : String
  timestamp : Nat
deriving DecidableEq, Repr

/-- A row of the sqlite `users` table (keyed by `user_id` separately). -/
structure SUser where
  username : String
  personality : String
  created_at : Nat
  updated_at : Nat

/-- The sqlite store: users, messages with autoincrement ids, metadata rows
(`value` is a TEXT column), and the abstract clock. -/
structure SqliteStore where
  users : List (String × SUser)
  messages : List SRow
  next_id : Nat
  meta : List ((String × String) × String)
  clock : Nat

/-- Fresh json store (empty top-level object). -/
def jsonInit : JsonStore := ⟨[], 0⟩

/-- Fresh sqlite store (empty tables, autoincrement starts at 1). -/
def sqliteInit : SqliteStore := ⟨[], [], 1, [], 0⟩

/-- Prefixing applied by `get_conversation_history` when usernames are
requested: user-role contents get a `[name]: ` marker unless already there. -/
def prefixUser (username : String) (m : ChatMsg) : ChatMsg :=
  if m.role == ("user") then
    if m.content.startsWith ("[" ++ username ++ "]: ") then m
    else ⟨m.role, "[" ++ username ++ "]: " ++ m.content⟩
  else m

namespace Json

/-- Source `get_user_personality`, json branch: stored value, or create the
user with the default personality and return it. -/
def get_user_personality (st : JsonStore) (uid : String) : String × JsonStore :=
  match st.data.lookup uid with
  | some u => (u.personality, st)
  | none =>
    let t := st.clock
    let u : JsonUser := ⟨placeholderName uid, ("default"), [], [], t, t⟩
    (("default"), ⟨dictSet st.data uid u, t + 1⟩)

/-- Source `set_user_personality`, json branch. -/
def set_user_personality (st : JsonStore) (uid p : String) : JsonStore :=
  let t := st.clock
  match st.data.lookup uid with
  | none =>
    let u : JsonUser := ⟨placeholderName uid, p, [], [], t, t⟩
    ⟨dictSet st.data uid u, t + 1⟩
  | some u =>
    ⟨dictSet st.data uid { u with personality := p, updated_at := t }, t + 1⟩

/-- Source `update_username`, json branch. -/
def update_username (st : JsonStore) (uid name : String) : JsonStore :=
  let t := st.clock
  match st.data.lookup uid with
  | none =>
    let u : JsonUser := ⟨name, ("default"), [], [], t, t⟩
    ⟨dictSet st.data uid u, t + 1⟩
  | some u =>
    ⟨dictSet st.data uid { u with username := name, updated_at := t }, t + 1⟩

/-- Source `get_username`, json branch (read-only). -/
def get_username (st : JsonStore) (uid : String) : String :=
  match st.data.lookup uid with
  | some u => u.username
  | none => placeholderName uid

/-- Source `get_all_usernames`, json branch (read-only). -/
def get_all_usernames (st : JsonStore) : List (String × String) :=
  st.data.map (fun e => (e.1, e.2.username))

/-- Source `user_exists`, json branch (read-only). -/
def user_exists (st : JsonStore) (uid : String) : Bool :=
  (st.data.lookup uid).isSome

/-- Source `add_message`, json branch: optional username update, lazy user
creation, append, trim to the `MAX_CONTEXT_LENGTH` most recent. -/
def add_message (maxLen : Nat) (st : JsonStore) (uid role content : String)
    (username : Option String) : JsonStore :=
  let t := st.clock
  let passed := username.getD ("")
  let p : String × JsonStore :=
    if passed ≠ "" then (passed, update_username st uid passed)
    else (get_username st uid, st)
  let uname := p.1
  let st1 := p.2
  let msg : Msg := ⟨role, content, t, uname⟩
  let q : JsonUser × JsonStore :=
    match st1.data.lookup uid with
    | some u => (u, st1)
    | none =>
      let u : JsonUser := ⟨uname, ("default"), [], [], t, t⟩
      (u, ⟨dictSet st1.data uid u, st1.clock⟩)
  let u := q.1
  let st2 := q.2
  let msgs := u.messages ++ [msg]
  let msgs := if msgs.length > maxLen then pyLastSlice maxLen msgs else msgs
  ⟨dictSet st2.data uid { u with messages := msgs, updated_at := t }, st2.clock + 1⟩

/-- Source `get_conversation_history`, json branch (read-only). -/
def get_conversation_history (st : JsonStore) (uid : String)
    (include_usernames : Bool) : List ChatMsg :=
  let username := get_username st uid
  match st.data.lookup uid with
  | none => []
  | some u =>
    let messages := u.messages.map (fun m => (⟨m.role, m.content⟩ : ChatMsg))
    if include_usernames ∧ messages ≠ [] then messages.map (prefixUser username)
    else messages

/-- Source `get_user_metadata`, json branch: Python returns `None` (here
`JVal.jnull`) both for an absent user and for an unset key; records created by
this model always carry a metadata mapping, so the legacy repair write for
records without one is unreachable and the read is pure. -/
def get_user_metadata (st : JsonStore) (uid key : String) : JVal :=
  match st.data.lookup uid with
  | none => .jnull
  | some u => (u.metadata.lookup key).getD .jnull

/-- Source `set_user_metadata`, json branch. -/
def set_user_metadata (st : JsonStore) (uid key : String) (v : JVal) : JsonStore :=
  let t := st.clock
  match st.data.lookup uid with
  | none =>
    let u : JsonUser := ⟨placeholderName uid, ("default"), [], [(key, v)], t, t⟩
    ⟨dictSet st.data uid u, t + 1⟩
  | some u =>
    ⟨dictSet st.data uid { u with metadata := dictSet u.metadata key v, updated_at := t }, t + 1⟩

/-- Source `reset_user_memory`, json branch: clear messages, keep the record. -/
def reset_user_memory (st : JsonStore) (uid : String) : JsonStore :=
  let t := st.clock
  match st.data.lookup uid with
  | none => st
  | some u => ⟨dictSet st.data uid { u with messages := [], updated_at := t }, t + 1⟩

/-- Source `delete_user_data`, json branch: remove the whole record. -/
def delete_user_data (st : JsonStore) (uid : String) : JsonStore :=
  match st.data.lookup uid with
  | none => st
  | some _ => ⟨dictDel st.data uid, st.clock + 1⟩

end Json

namespace Sqlite

/-- Source `get_user_personality`, sqlite branch: SELECT, or INSERT a fresh
row with the default personality. -/
def get_user_personality (st : SqliteStore) (uid : String) : String × SqliteStore :=
  match st.users.lookup uid with
  | some u => (u.personality, st)
  | none =>
    let t := st.clock
    let u : SUser := ⟨placeholderName uid, ("default"), t, t⟩
    (("default"), { st with users := st.users ++ [(uid, u)], clock := t + 1 })

/-- Source `set_user_personality`, sqlite branch: UPDATE, and INSERT when the
UPDATE touched no row. -/
def set_user_personality (st : SqliteStore) (uid p : String) : SqliteStore :=
  let t := st.clock
  match st.users.lookup uid with
  | some _ =>
    { st with
        users := st.users.map (fun e =>
          if e.1 == uid then (e.1, { e.2 with personality := p, updated_at := t }) else e),
        clock := t + 1 }
  | none =>
    { st with users := st.users ++ [(uid, ⟨placeholderName uid, p, t, t⟩)], clock := t + 1 }

/-- Source `update_username`, sqlite branch. -/
def update_username (st : SqliteStore) (uid name : String) : SqliteStore :=
  let t := st.clock
  match st.users.lookup uid with
  | some _ =>
    { st with
        users := st.users.map (fun e =>
          if e.1 == uid then (e.1, { e.2 with username := name, updated_at := t }) else e),
        clock := t + 1 }
  | none =>
    { st with users := st.users ++ [(uid, ⟨name, ("default"), t, t⟩)], clock := t + 1 }

/-- Source `get_username`, sqlite branch (read-only). -/
def get_username (st : SqliteStore) (uid : String) : String :=
  match st.users.lookup uid with
  | some u => u.username
  | none => placeholderName uid

/-- Source `get_all_usernames`, sqlite branch (read-only). -/
def get_all_usernames (st : SqliteStore) : List (String × String) :=
  st.users.map (fun e => (e.1, e.2.username))

/-- Source `user_exists`, sqlite branch (read-only). -/
def user_exists (st : SqliteStore) (uid : String) : Bool :=
  (st.users.lookup uid).isSome

/-- Source `_ensure_user_exists`: INSERT when absent; when present and a
(non-empty) username was passed, rewrite the username column only. -/
def ensure_user_exists (st : SqliteStore) (uid : String) (username : Option String) :
    SqliteStore :=
  match st.users.lookup uid with
  | none =>
    let t := st.clock
    let name := match username with
      | some s => if s ≠ "" then s else placeholderName uid
      | none => placeholderName uid
    { st with users := st.users ++ [(uid, ⟨name, ("default"), t, t⟩)], clock := t + 1 }
  | some _ =>
    match username with
    | some s =>
      if s ≠ "" then
        { st with users := st.users.map (fun e =>
            if e.1 == uid then (e.1, { e.2 with username := s }) else e) }
      else st
    | none => st

/-- The relation of the `ORDER BY timestamp DESC` clause. -/
def tsGe (a b : SRow) : Prop := b.timestamp ≤ a.timestamp

instance : DecidableRel tsGe := fun a b => Nat.decLe b.timestamp a.timestamp

/-- The relation of the `ORDER BY timestamp ASC` clause. -/
def tsLe (a b : SRow) : Prop := a.timestamp ≤ b.timestamp

instance : DecidableRel tsLe := fun a b => Nat.decLe a.timestamp b.timestamp

/-- Source `add_message`, sqlite branch: optional username update, ensure the
user row, INSERT the message, then DELETE every row of this user that the
`ORDER BY timestamp DESC LIMIT -1 OFFSET MAX_CONTEXT_LENGTH` window names. -/
def add_message (maxLen : Nat) (st : SqliteStore) (uid role content : String)
    (username : Option String) : SqliteStore :=
  let t := st.clock
  let passed := username.getD ("")
  let p : String × SqliteStore :=
    if passed ≠ "" then (passed, update_username st uid passed)
    else (get_username st uid, st)
  let uname := p.1
  let st1 := p.2
  let st2 := ensure_user_exists st1 uid (some uname)
  let row : SRow := ⟨st2.next_id, uid, role, content, t⟩
  let st3 := { st2 with
      messages := st2.messages ++ [row],
      next_id := st2.next_id + 1,
      clock := st2.clock + 1 }
  let mu := st3.messages.filter (fun m => m.user_id == uid)
  let delIds := ((mu.insertionSort tsGe).drop maxLen).map (fun m => m.id)
  { st3 with messages := st3.messages.filter (fun m => !(delIds.contains m.id)) }

/-- Source `get_conversation_history`, sqlite branch (read-only). -/
def get_conversation_history (st : SqliteStore) (uid : String)
    (include_usernames : Bool) : List ChatMsg :=
  let username := get_username st uid
  let mu := (st.messages.filter (fun m => m.user_id == uid)).insertionSort tsLe
  let messages := mu.map (fun m => (⟨m.role, m.content⟩ : ChatMsg))
  if include_usernames ∧ messages ≠ [] then messages.map (prefixUser username)
  else messages

/-- Source `get_user_metadata`, sqlite branch: ensures the user row exists,
then SELECTs the TEXT value and tries `json.loads` on it. -/
def get_user_metadata (st : SqliteStore) (uid key : String) : JVal × SqliteStore :=
  let st1 := ensure_user_exists st uid none
  match st1.meta.lookup (uid, key) with
  | some s => (sqliteDecode s, st1)
  | none => (.jnull, st1)

/-- Source `set_user_metadata`, sqlite branch: ensures the user row, converts
a non-string value with `json.dumps`, and upserts the TEXT value. -/
def set_user_metadata (st : SqliteStore) (uid key : String) (v : JVal) : SqliteStore :=
  let st1 := ensure_user_exists st uid none
  let s := match v with
    | .jstr s => s
    | _ => pyDumps v
  { st1 with meta := dictSet st1.meta (uid, key) s }

/-- Source `reset_user_memory`, sqlite branch: DELETE this user's messages. -/
def reset_user_memory (st : SqliteStore) (uid : String) : SqliteStore :=
  { st with messages := st.messages.filter (fun m => !(m.user_id == uid)) }

/-- Source `delete_user_data`, sqlite branch: DELETE messages, metadata and
the user row. -/
def delete_user_data (st : SqliteStore) (uid : String) : SqliteStore :=
  { st with
      messages := st.messages.filter (fun m => !(m.user_id == uid)),
      meta := st.meta.filter (fun e => !(e.1.1 == uid)),
      users := st.users.filter (fun e => !(e.1 == uid)) }

end Sqlite

/-- The static personality registry of `src/utils/config.py`:
`id ↦ (name, system_prompt)`. -/
def PERSONALITIES : List (String × String × String) :=
  [ (("default"), (("Default Homie"),
      ("Respond as a chill, reliable friend. Keep answers quick, clear, and packed with a laid-back, approachable vibe. Drop casual slang like \"fam\" or \"no cap\" to keep it real."))),
    (("sarcastic"), (("Sarcastic Snark"),
      ("Answer with sharp wit and a heavy dose of sarcasm. Throw in quick, playful jabs and spicy shade, but stay helpful. Use a bold, roasting tone to keep things lively."))),
    (("poetic"), (("Poetic Dreamer"),
      ("Craft responses like short, lyrical poems. Use vivid imagery, flowery language, and a dreamy tone. Keep it concise but elegant, as if every answer is a verse."))),
    (("coding_tutor"), (("Code Bro"),
      ("Act like an enthusiastic coding buddy. Guide users through debugging and concepts with hyped-up energy. Keep responses short, clear, and encouraging, using terms like \"bro\" or \"fam.\""))),
    (("submissive_loser"), (("Submissive Simp"),
      ("Reply with extreme humility and self-deprecation. Praise the user excessively, act inferior, and eagerly fulfill requests. Use a groveling, pathetic tone with quick, servile responses."))),
    (("crattosa_mode"), (("Crattosa Chaos"),
      ("Deliver answers with wild, chaotic energy. Sprinkle in phrases like \"Om nom doggie!\", \"Brother man bill!\", \"Oh stop, you\x27re hurting me!\", and \"Oh yes!\". Keep responses quick and unhinged."))) ]

/-- Source `PERSONALITIES.get(personality, PERSONALITIES[\x27default\x27])`. -/
def personalityData (p : String) : String × String :=
  match PERSONALITIES.lookup p with
  | some d => d
  | none => (PERSONALITIES.lookup ("default")).getD (("", ""))

/-- Source `_enhance_system_prompt_with_usernames`: personality banner, then
conditionally the new-user directive, the current user's name, and the block
enumerating the known id→name mapping. -/
def enhance_system_prompt (system_prompt personality_display_name : String)
    (current_username : Option String) (user_mapping : Option (List (String × String)))
    (is_new_user : Bool) : String :=
  let e := "Personality: " ++ personality_display_name ++ "\n\n" ++ system_prompt
  let e := if is_new_user then
      e ++ "\n\nThis is a new user. Provide a brief welcome message before addressing their query."
    else e
  let e := match current_username with
    | some cu =>
      if cu ≠ "" then e ++ "\n\nThe current user you\x27re talking to is named " ++ cu ++ "."
      else e
    | none => e
  match user_mapping with
  | some um =>
    if um ≠ [] then
      e ++ ("\n\nOther users in the conversation include:"
            ++ String.join (um.map (fun kv => "\n- User " ++ kv.1 ++ ": " ++ kv.2)))
        ++ "\n\nWhen responding, you can reference users by their names rather than their IDs."
    else e
  | none => e

/-- Username shown in a shared-context marker:
`user_mapping.get(uid, f"user \x7buid\x7d") if user_mapping else f"user \x7buid\x7d"`. -/
def contextUsername (user_mapping : Option (List (String × String))) (uid : String) : String :=
  match user_mapping with
  | some um => if um ≠ [] then (um.lookup uid).getD ("user " ++ uid) else "user " ++ uid
  | none => "user " ++ uid

/-- The shared-context contribution of one `global_context` entry: skipped for
the current user and for an empty history, otherwise a system marker followed
by the last three messages restricted to user/assistant roles. -/
def userBlock (user_mapping : Option (List (String × String)))
    (current_user_id : Option String) (e : String × List ChatMsg) : List ChatMsg :=
  if current_user_id = some e.1 then []
  else if e.2 = [] then []
  else
    ⟨("system"), "[Context from " ++ contextUsername user_mapping e.1 ++ "]"⟩ ::
      (pyLastSlice 3 e.2).filter (fun m => m.role == ("user") || m.role == ("assistant"))

/-- The whole shared-context block, in iteration order of `global_context`. -/
def sharedBlock (gc : List (String × List ChatMsg))
    (current_user_id : Option String)
    (user_mapping : Option (List (String × String))) : List ChatMsg :=
  (gc.map (userBlock user_mapping current_user_id)).flatten

/-- The deterministic message-assembly part of `generate_response` (lines
129–164 of `src/models/llm.py`): personality resolution with default
fallback, system-message stripping and re-insertion, and the optional
shared-context prefix. -/
def composeMessages (messages : List ChatMsg) (personality : String)
    (global_context : Option (List (String × List ChatMsg)))
    (current_user_id current_username : Option String)
    (user_mapping : Option (List (String × String)))
    (is_new_user : Bool) : List ChatMsg :=
  let pd := personalityData personality
  let sys := enhance_system_prompt pd.2 pd.1 current_username user_mapping is_new_user
  let msgs := messages.filter (fun m => m.role != ("system"))
  let msgs := (⟨("system"), sys⟩ : ChatMsg) :: msgs
  match global_context with
  | none => msgs
  | some gc => if gc = [] then msgs else sharedBlock gc current_user_id user_mapping ++ msgs

/-- One storage operation, as issued against a `MemoryManager` of either
storage variant. -/
inductive MOp where
  | addMsg (uid role content : String) (username : Option String)
  | setPers (uid p : String)
  | getPers (uid : String)
  | setName (uid name : String)
  | setMeta (uid key : String) (v : JVal)
  | getMeta (uid key : String)
  | reset (uid : String)
  | delete (uid : String)

/-- Whether an operation is a metadata read. -/
def MOp.isGetMeta : MOp → Bool
  | .getMeta _ _ => true
  | _ => false

/-- State transition of one operation on the sqlite variant. -/
def sqlStep (maxLen : Nat) (st : SqliteStore) : MOp → SqliteStore
  | .addMsg u r c n => Sqlite.add_message maxLen st u r c n
  | .setPers u p => Sqlite.set_user_personality st u p
  | .getPers u => (Sqlite.get_user_personality st u).2
  | .setName u n => Sqlite.update_username st u n
  | .setMeta u k v => Sqlite.set_user_metadata st u k v
  | .getMeta u k => (Sqlite.get_user_metadata st u k).2
  | .reset u => Sqlite.reset_user_memory st u
  | .delete u => Sqlite.delete_user_data st u

/-- State transition of one operation on the json variant. -/
def jsonStep (maxLen : Nat) (st : JsonStore) : MOp → JsonStore
  | .addMsg u r c n => Json.add_message maxLen st u r c n
  | .setPers u p => Json.set_user_personality st u p
  | .getPers u => (Json.get_user_personality st u).2
  | .setName u n => Json.update_username st u n
  | .setMeta u k v => Json.set_user_metadata st u k v
  | .getMeta _ _ => st
  | .reset u => Json.reset_user_memory st u
  | .delete u => Json.delete_user_data st u

/-- Run an operation sequence on a fresh sqlite store. -/
def runSql (maxLen : Nat) (ops : List MOp) : SqliteStore :=
  ops.foldl (sqlStep maxLen) sqliteInit

/-- Run an operation sequence on a fresh json store. -/
def runJson (maxLen : Nat) (ops : List MOp) : JsonStore :=
  ops.foldl (jsonStep maxLen) jsonInit

section DictLemmas

variable {κ β : Type} [BEq κ] [LawfulBEq κ]

omit [LawfulBEq κ] in
theorem lookup_cons_ite (k : κ) (e : κ × β) (t : List (κ × β)) :
    ((e :: t).lookup k) = if k == e.1 then some e.2 else t.lookup k := by
  obtain ⟨k2, v⟩ := e
  rw [List.lookup_cons]
  cases h : k == k2 <;> simp [h]

omit [LawfulBEq κ] in
theorem lookup_append_none (l1 l2 : List (κ × β)) (k : κ) (h : l1.lookup k = none) :
    (l1 ++ l2).lookup k = l2.lookup k := by
  induction l1 with
  | nil => rfl
  | cons e t ih =>
    rw [lookup_cons_ite] at h
    rw [List.cons_append, lookup_cons_ite]
    cases hk : k == e.1 with
    | true => rw [hk] at h; simp at h
    | false => rw [hk] at h; simp at h ⊢; exact ih h

omit [LawfulBEq κ] in
theorem lookup_append_some (l1 l2 : List (κ × β)) (k : κ) (v : β)
    (h : l1.lookup k = some v) : (l1 ++ l2).lookup k = some v := by
  induction l1 with
  | nil => exact absurd h (by simp)
  | cons e t ih =>
    rw [lookup_cons_ite] at h
    rw [List.cons_append, lookup_cons_ite]
    cases hk : k == e.1 with
    | true => rw [hk] at h; simpa using h
    | false => rw [hk] at h; simp at h ⊢; exact ih h

theorem lookup_singleton_self (k : κ) (v : β) :
    ([(k, v)] : List (κ × β)).lookup k = some v := by
  rw [lookup_cons_ite]
  simp

/-- Lookup after a keyed in-place rewrite. -/
theorem lookup_upd (d : List (κ × β)) (k k2 : κ) (g : κ × β → β) :
    (d.map (fun e => if e.1 == k then (e.1, g e) else e)).lookup k2
      = if k2 == k then (d.lookup k2).map (fun v => g (k2, v)) else d.lookup k2 := by
  induction d with
  | nil => cases hk : k2 == k <;> simp [hk]
  | cons e t ih =>
    rw [List.map_cons]
    cases he : e.1 == k with
    | true =>
      cases hk2 : k2 == e.1 with
      | true =>
        have hkk : (k2 == k) = true := by rw [eq_of_beq hk2]; exact he
        have hge : g e = g (k2, e.2) := by
          rw [eq_of_beq hk2]
        simp [lookup_cons_ite, hk2, hkk, hge]
      | false =>
        have hne : (k2 == k) = false := by rw [← eq_of_beq he]; exact hk2
        simp [lookup_cons_ite, hk2, hne, ih]
    | false =>
      cases hk2 : k2 == e.1 with
      | true =>
        have hne : (k2 == k) = false := by rw [eq_of_beq hk2]; exact he
        simp [lookup_cons_ite, hk2, hne]
      | false =>
        simp [lookup_cons_ite, hk2, ih]

theorem lookup_dictSet_self (d : List (κ × β)) (k : κ) (v : β) :
    (dictSet d k v).lookup k = some v := by
  unfold dictSet
  cases h : (d.lookup k) with
  | none => simp only [h, Option.isSome_none, Bool.false_eq_true, if_false]
            rw [lookup_append_none d _ k h]; exact lookup_singleton_self k v
  | some w =>
    simp only [h, Option.isSome_some, if_true]
    have := lookup_upd d k k (fun _ => v)
    simp only [BEq.refl, if_true, h] at this
    exact this

theorem lookup_dictSet_ne (d : List (κ × β)) (k k2 : κ) (v : β)
    (h : (k2 == k) = false) : (dictSet d k v).lookup k2 = d.lookup k2 := by
  unfold dictSet
  cases hd : (d.lookup k) with
  | none =>
    simp only [hd, Option.isSome_none, Bool.false_eq_true, if_false]
    cases h2 : (d.lookup k2) with
    | none =>
      rw [lookup_append_none d _ k2 h2, lookup_cons_ite, h]
      simp
    | some w => exact lookup_append_some d _ k2 w h2
  | some w =>
    simp only [hd, Option.isSome_some, if_true]
    have := lookup_upd d k k2 (fun _ => v)
    rw [h] at this
    simpa using this

theorem lookup_dictDel_self (d : List (κ × β)) (k : κ) :
    (dictDel d k).lookup k = none := by
  induction d with
  | nil => rfl
  | cons e t ih =>
    unfold dictDel at ih ⊢
    rw [List.filter_cons]
    cases he : e.1 == k with
    | true => simp only [he, Bool.not_true, Bool.false_eq_true, if_false]; exact ih
    | false =>
      simp only [he, Bool.not_false, if_true]
      rw [lookup_cons_ite]
      have hk : (k == e.1) = false := by
        cases hk : k == e.1 with
        | false => rfl
        | true => rw [eq_of_beq hk] at he; simp at he
      rw [hk]
      simpa using ih

theorem lookup_dictDel_ne (d : List (κ × β)) (k k2 : κ) (h : (k2 == k) = false) :
    (dictDel d k).lookup k2 = d.lookup k2 := by
  induction d with
  | nil => rfl
  | cons e t ih =>
    unfold dictDel at ih ⊢
    rw [List.filter_cons]
    cases he : e.1 == k with
    | true =>
      simp only [he, Bool.not_true, Bool.false_eq_true, if_false]
      rw [ih, lookup_cons_ite]
      have hk2 : (k2 == e.1) = false := by
        cases hk : k2 == e.1 with
        | false => rfl
        | true => rw [eq_of_beq hk, he] at h; exact h
      rw [hk2]
      simp
    | false =>
      simp only [he, Bool.not_false, if_true]
      rw [lookup_cons_ite, lookup_cons_ite]
      cases hk : k2 == e.1 with
      | true => simp [hk]
      | false => simp only [hk, Bool.false_eq_true, if_false]; exact ih

end DictLemmas

/-- User table abstraction compared across backends: key, username,
personality, in iteration order. -/
def usersAbs (s : SqliteStore) : List (String × String × String) :=
  s.users.map (fun e => (e.1, e.2.username, e.2.personality))

/-- Document-store abstraction compared across backends. -/
def dataAbs (j : JsonStore) : List (String × String × String) :=
  j.data.map (fun e => (e.1, e.2.username, e.2.personality))

/-- Role/content trace of one user's messages in the sqlite variant, in
insertion order. -/
def userMsgsSql (s : SqliteStore) (u : String) : List (String × String) :=
  (s.messages.filter (fun m => m.user_id == u)).map (fun m => (m.role, m.content))

/-- Role/content trace of one user's messages in the json variant. -/
def userMsgsJson (j : JsonStore) (u : String) : List (String × String) :=
  ((j.data.lookup u).elim [] (fun r => r.messages)).map (fun m => (m.role, m.content))

/-- Internal well-formedness of a reachable sqlite store: timestamps and ids
strictly increase along the insertion-ordered message log and stay below the
clock and the autoincrement counter. -/
def SqlInv (s : SqliteStore) : Prop :=
  s.messages.Pairwise (fun a b => a.timestamp < b.timestamp) ∧
  s.messages.Pairwise (fun a b => a.id < b.id) ∧
  (∀ m ∈ s.messages, m.timestamp < s.clock) ∧
  (∀ m ∈ s.messages, m.id < s.next_id)

/-- Simulation relation between the two storage variants: same user triples
in the same order, duplicate-free keys, the same per-user message traces, and
a well-formed sqlite side. -/
def SimR (s : SqliteStore) (j : JsonStore) : Prop :=
  usersAbs s = dataAbs j ∧
  (s.users.map Prod.fst).Nodup ∧
  (∀ u, userMsgsSql s u = userMsgsJson j u) ∧
  SqlInv s

/-- The common effect of one append followed by the retention trim on a
per-user message list (for a positive retention bound). -/
def trimAppend (maxLen : Nat) (l : List α) (x : α) : List α :=
  let l2 := l ++ [x]
  if l2.length > maxLen then l2.drop (l2.length - maxLen) else l2

/-- Append a list of (role, content) messages for one user, json variant. -/
def appendAllJson (maxLen : Nat) (st : JsonStore) (u : String)
    (L : List (String × String)) : JsonStore :=
  L.foldl (fun st rc => Json.add_message maxLen st u rc.1 rc.2 none) st

/-- Append a list of (role, content) messages for one user, sqlite variant. -/
def appendAllSql (maxLen : Nat) (st : SqliteStore) (u : String)
    (L : List (String × String)) : SqliteStore :=
  L.foldl (fun st rc => Sqlite.add_message maxLen st u rc.1 rc.2 none) st

/-- The insert-and-trim tail of the sqlite `add_message` (the INSERT followed
by the windowed DELETE), isolated for reasoning. -/
def sqlInsertTrim (maxLen : Nat) (st2 : SqliteStore) (u r c : String) (t : Nat) :
    SqliteStore :=
  let row : SRow := ⟨st2.next_id, u, r, c, t⟩
  let st3 := { st2 with
      messages := st2.messages ++ [row],
      next_id := st2.next_id + 1,
      clock := st2.clock + 1 }
  let mu := st3.messages.filter (fun m => m.user_id == u)
  let delIds := ((mu.insertionSort Sqlite.tsGe).drop maxLen).map (fun m => m.id)
  { st3 with messages := st3.messages.filter (fun m => !(delIds.contains m.id)) }

/-- C7: for every personality id not present in the static registry, the
composer resolves the default personality's prompt and display name and the
assembled message list is the one the default personality yields; no error is
signalled (the composition is a total function). -/
theorem c7_unknown_personality (p : String) (h : PERSONALITIES.lookup p = none)
    (messages : List ChatMsg) (gc : Option (List (String × List ChatMsg)))
    (cuid cun : Option String) (um : Option (List (String × String))) (inu : Bool) :
    personalityData p = personalityData ("default") ∧
    composeMessages messages p gc cuid cun um inu
      = composeMessages messages ("default") gc cuid cun um inu := by
  have h1 : personalityData p = personalityData ("default") := by
    unfold personalityData
    rw [h]
    rfl
  refine ⟨h1, ?_⟩
  unfold composeMessages
  rw [h1]

/-- Witness for C7 at the concrete unknown id `"nonexistent"`. -/
theorem c7_unknown_personality_witness :
    PERSONALITIES.lookup ("nonexistent") = none ∧
    (personalityData ("nonexistent") = personalityData ("default") ∧
     composeMessages [] ("nonexistent") none none none none false
       = composeMessages [] ("default") none none none none false) :=
  ⟨rfl, c7_unknown_personality ("nonexistent") rfl [] none none none none false⟩

/-- C3 counterexample: in the sqlite variant the stored string `"3"` is read
back as the integer `3` (because the read attempts `json.loads` on the TEXT
column), and in the json variant a stored `null` is indistinguishable from
the never-set marker (both are Python `None`). -/
theorem c3_counterexample :
    (Sqlite.get_user_metadata
        (Sqlite.set_user_metadata sqliteInit ("u1") ("slap_count") (.jstr ("3")))
        ("u1") ("slap_count")).1 = .jint 3
    ∧ (JVal.jint 3 ≠ JVal.jstr ("3"))
    ∧ Json.get_user_metadata (Json.set_user_metadata jsonInit ("u1") ("k") .jnull)
        ("u1") ("k")
      = Json.get_user_metadata jsonInit ("u1") ("k") := by
  refine ⟨rfl, ?_, rfl⟩
  intro h
  exact JVal.noConfusion h

/-- C3 as amended: in the json variant every stored value (number, string or
structured) is returned unchanged by a subsequent read of the same key, and a
key that was never set reads as `None`; the absent marker coincides with a
stored `null`, so only non-null values are distinguishable from absence, and
the sqlite variant additionally JSON-decodes stored strings. -/
theorem c3_amended (st : JsonStore) (u k : String) (v : JVal) :
    Json.get_user_metadata (Json.set_user_metadata st u k v) u k = v
    ∧ (∀ u2 k2,
        (st.data.lookup u2).elim True (fun r => r.metadata.lookup k2 = none) →
        Json.get_user_metadata st u2 k2 = .jnull) := by
  constructor
  · unfold Json.set_user_metadata Json.get_user_metadata
    cases hu : st.data.lookup u with
    | none =>
      dsimp only
      rw [lookup_dictSet_self]
      dsimp only
      rw [lookup_singleton_self]
      rfl
    | some w =>
      dsimp only
      rw [lookup_dictSet_self]
      dsimp only
      rw [lookup_dictSet_self]
      rfl
  · intro u2 k2 hk
    unfold Json.get_user_metadata
    cases hu : st.data.lookup u2 with
    | none => rfl
    | some w =>
      rw [hu] at hk
      dsimp only [Option.elim] at hk
      dsimp only
      rw [hk]
      rfl

/-- Witness for C3 (amended) at a concrete store and value. -/
theorem c3_amended_witness :
    Json.get_user_metadata (Json.set_user_metadata jsonInit ("u1") ("slap_count") (.jint 3))
        ("u1") ("slap_count") = .jint 3
    ∧ Json.get_user_metadata jsonInit ("u1") ("slap_count") = .jnull :=
  ⟨(c3_amended jsonInit ("u1") ("slap_count") (.jint 3)).1,
   (c3_amended jsonInit ("u1") ("slap_count") (.jint 3)).2 ("u1") ("slap_count") trivial⟩

/-- Pointwise reformulation of the username-prefixing transform. -/
theorem prefixUser_eq (un : String) (m : ChatMsg) :
    prefixUser un m
      = if m.role == ("user") ∧ ¬ m.content.startsWith ("[" ++ un ++ "]: ")
        then (⟨m.role, "[" ++ un ++ "]: " ++ m.content⟩ : ChatMsg)
        else m := by
  unfold prefixUser
  cases hr : m.role == ("user") with
  | false => simp [hr]
  | true =>
    cases hs : m.content.startsWith ("[" ++ un ++ "]: ") <;> simp [hr, hs]

/-- The two flag values of the history read, related by the prefix map. -/
theorem hist_shape (un : String) (msgs : List ChatMsg) :
    (if (true : Bool) ∧ msgs ≠ [] then msgs.map (prefixUser un) else msgs)
      = (if (false : Bool) ∧ msgs ≠ [] then msgs.map (prefixUser un) else msgs).map
          (fun m =>
            if m.role == ("user") ∧ ¬ m.content.startsWith ("[" ++ un ++ "]: ")
            then (⟨m.role, "[" ++ un ++ "]: " ++ m.content⟩ : ChatMsg)
            else m) := by
  have hf : (if (false : Bool) ∧ msgs ≠ [] then msgs.map (prefixUser un) else msgs)
      = msgs := by simp
  rw [hf]
  cases hm : msgs with
  | nil => simp
  | cons a t =>
    rw [if_pos ⟨rfl, by simp⟩]
    apply List.map_congr_left
    intro m _
    exact prefixUser_eq un m

/-- C10: with usernames requested, each user-role message content is returned
with the `[username]: ` marker prepended unless already present, and all other
messages are returned verbatim; the read is a pure function of the store in
both variants (the source rebuilds fresh dicts from storage on every call),
so repeated calls return equal results. -/
theorem c10_username_prefixing (s : SqliteStore) (j : JsonStore) (u : String) :
    Json.get_conversation_history j u true
      = (Json.get_conversation_history j u false).map (fun m =>
          if m.role == ("user") ∧ ¬ m.content.startsWith ("[" ++ Json.get_username j u ++ "]: ")
          then (⟨m.role, "[" ++ Json.get_username j u ++ "]: " ++ m.content⟩ : ChatMsg)
          else m)
    ∧ Sqlite.get_conversation_history s u true
      = (Sqlite.get_conversation_history s u false).map (fun m =>
          if m.role == ("user") ∧ ¬ m.content.startsWith ("[" ++ Sqlite.get_username s u ++ "]: ")
          then (⟨m.role, "[" ++ Sqlite.get_username s u ++ "]: " ++ m.content⟩ : ChatMsg)
          else m) := by
  constructor
  · unfold Json.get_conversation_history
    cases hu : j.data.lookup u with
    | none => rfl
    | some w =>
      dsimp only
      exact hist_shape (Json.get_username j u) (w.messages.map (fun m => ⟨m.role, m.content⟩))
  · unfold Sqlite.get_conversation_history
    dsimp only
    exact hist_shape (Sqlite.get_username s u) _

/-- C8: on a user with no record, `get_user_personality` returns `"default"`
and creates the record; a second call returns `"default"` again and leaves
the store exactly as it was after the first call, in both variants. -/
theorem c8_get_personality_lazy (s : SqliteStore) (j : JsonStore) (u : String)
    (hs : Sqlite.user_exists s u = false) (hj : Json.user_exists j u = false) :
    (Sqlite.get_user_personality s u).1 = ("default")
    ∧ Sqlite.user_exists (Sqlite.get_user_personality s u).2 u = true
    ∧ (Sqlite.get_user_personality (Sqlite.get_user_personality s u).2 u).1 = ("default")
    ∧ (Sqlite.get_user_personality (Sqlite.get_user_personality s u).2 u).2
        = (Sqlite.get_user_personality s u).2
    ∧ (Json.get_user_personality j u).1 = ("default")
    ∧ Json.user_exists (Json.get_user_personality j u).2 u = true
    ∧ (Json.get_user_personality (Json.get_user_personality j u).2 u).1 = ("default")
    ∧ (Json.get_user_personality (Json.get_user_personality j u).2 u).2
        = (Json.get_user_personality j u).2 := by
  have hs' : s.users.lookup u = none := by
    unfold Sqlite.user_exists at hs
    cases h : s.users.lookup u with
    | none => rfl
    | some w => rw [h] at hs; simp at hs
  have hj' : j.data.lookup u = none := by
    unfold Json.user_exists at hj
    cases h : j.data.lookup u with
    | none => rfl
    | some w => rw [h] at hj; simp at hj
  have ls : (s.users ++ [(u, (⟨placeholderName u, ("default"), s.clock, s.clock⟩ : SUser))]).lookup u
      = some ⟨placeholderName u, ("default"), s.clock, s.clock⟩ := by
    rw [lookup_append_none _ _ _ hs']
    exact lookup_singleton_self _ _
  have lj : (dictSet j.data u
        (⟨placeholderName u, ("default"), [], [], j.clock, j.clock⟩ : JsonUser)).lookup u
      = some ⟨placeholderName u, ("default"), [], [], j.clock, j.clock⟩ :=
    lookup_dictSet_self _ _ _
  unfold Sqlite.get_user_personality Json.get_user_personality Sqlite.user_exists Json.user_exists
  rw [hs', hj']
  dsimp only
  rw [ls, lj]
  exact ⟨rfl, rfl, rfl, rfl, rfl, rfl, rfl, rfl⟩

/-- Witness for C8 on fresh stores and the user `"u1"`. -/
theorem c8_get_personality_lazy_witness :
    Sqlite.user_exists sqliteInit ("u1") = false
    ∧ Json.user_exists jsonInit ("u1") = false
    ∧ (Sqlite.get_user_personality sqliteInit ("u1")).1 = ("default")
    ∧ (Json.get_user_personality jsonInit ("u1")).1 = ("default") :=
  ⟨rfl, rfl, (c8_get_personality_lazy sqliteInit jsonInit ("u1") rfl rfl).1,
   (c8_get_personality_lazy sqliteInit jsonInit ("u1") rfl rfl).2.2.2.2.1⟩

/-- Filtering for a predicate after keeping its complement yields nothing. -/
theorem filter_not_filter (p : α → Bool) (l : List α) :
    (l.filter (fun a => !(p a))).filter p = [] := by
  induction l with
  | nil => rfl
  | cons a t ih =>
    rw [List.filter_cons]
    cases h : p a with
    | true => simp [h, ih]
    | false => simp [h, ih]

/-- C6: for an existing user, reset keeps the record, its personality and its
metadata while emptying the history; delete removes the user row together
with all messages and metadata, in both variants. -/
theorem c6_reset_vs_delete (s : SqliteStore) (j : JsonStore) (u : String)
    (hs : Sqlite.user_exists s u = true) (hj : Json.user_exists j u = true) :
    Sqlite.user_exists (Sqlite.reset_user_memory s u) u = true
    ∧ (Sqlite.get_user_personality (Sqlite.reset_user_memory s u) u).1
        = (Sqlite.get_user_personality s u).1
    ∧ (Sqlite.reset_user_memory s u).meta = s.meta
    ∧ (∀ b, Sqlite.get_conversation_history (Sqlite.reset_user_memory s u) u b = [])
    ∧ Sqlite.user_exists (Sqlite.delete_user_data s u) u = false
    ∧ (Sqlite.delete_user_data s u).messages.filter (fun m => m.user_id == u) = []
    ∧ (Sqlite.delete_user_data s u).meta.filter (fun e => e.1.1 == u) = []
    ∧ Json.user_exists (Json.reset_user_memory j u) u = true
    ∧ ((Json.reset_user_memory j u).data.lookup u).map (fun r => r.personality)
        = (j.data.lookup u).map (fun r => r.personality)
    ∧ ((Json.reset_user_memory j u).data.lookup u).map (fun r => r.metadata)
        = (j.data.lookup u).map (fun r => r.metadata)
    ∧ (∀ b, Json.get_conversation_history (Json.reset_user_memory j u) u b = [])
    ∧ Json.user_exists (Json.delete_user_data j u) u = false := by
  obtain ⟨w, hw⟩ : ∃ w, j.data.lookup u = some w := by
    unfold Json.user_exists at hj
    cases h : j.data.lookup u with
    | none => rw [h] at hj; simp at hj
    | some w => exact ⟨w, rfl⟩
  have hresetJ : Json.reset_user_memory j u
      = ⟨dictSet j.data u { w with messages := [], updated_at := j.clock }, j.clock + 1⟩ := by
    unfold Json.reset_user_memory
    rw [hw]
  have hlookupJ : (Json.reset_user_memory j u).data.lookup u
      = some { w with messages := [], updated_at := j.clock } := by
    rw [hresetJ]
    exact lookup_dictSet_self _ _ _
  refine ⟨hs, ?_, rfl, ?_, ?_, ?_, ?_, ?_, ?_, ?_, ?_, ?_⟩
  · unfold Sqlite.get_user_personality Sqlite.reset_user_memory
    dsimp only
    cases h : s.users.lookup u with
    | some w => rfl
    | none => rfl
  · intro b
    unfold Sqlite.get_conversation_history Sqlite.reset_user_memory
    dsimp only
    rw [filter_not_filter (fun m => m.user_id == u) s.messages]
    simp [List.insertionSort]
  · unfold Sqlite.user_exists Sqlite.delete_user_data
    dsimp only
    have h1 : (dictDel s.users u).lookup u = none := lookup_dictDel_self s.users u
    unfold dictDel at h1
    rw [h1]
    rfl
  · unfold Sqlite.delete_user_data
    exact filter_not_filter (fun m => m.user_id == u) s.messages
  · unfold Sqlite.delete_user_data
    exact filter_not_filter (fun e => e.1.1 == u) s.meta
  · unfold Json.user_exists
    rw [hlookupJ]
    rfl
  · rw [hlookupJ, hw]
    rfl
  · rw [hlookupJ, hw]
    rfl
  · intro b
    unfold Json.get_conversation_history
    rw [hlookupJ]
    simp
  · unfold Json.user_exists Json.delete_user_data
    rw [hw]
    dsimp only
    rw [lookup_dictDel_self]
    rfl

/-- Witness for C6 on stores holding the user `"u1"` with one message. -/
theorem c6_reset_vs_delete_witness :
    Sqlite.user_exists (runSql 10 [.addMsg ("u1") ("user") ("hi") none]) ("u1") = true
    ∧ Json.user_exists (runJson 10 [.addMsg ("u1") ("user") ("hi") none]) ("u1") = true
    ∧ Sqlite.user_exists
        (Sqlite.delete_user_data (runSql 10 [.addMsg ("u1") ("user") ("hi") none]) ("u1"))
        ("u1") = false
    ∧ Json.user_exists
        (Json.delete_user_data (runJson 10 [.addMsg ("u1") ("user") ("hi") none]) ("u1"))
        ("u1") = false :=
  ⟨rfl, rfl,
   (c6_reset_vs_delete (runSql 10 [.addMsg ("u1") ("user") ("hi") none])
      (runJson 10 [.addMsg ("u1") ("user") ("hi") none]) ("u1") rfl rfl).2.2.2.2.1,
   (c6_reset_vs_delete (runSql 10 [.addMsg ("u1") ("user") ("hi") none])
      (runJson 10 [.addMsg ("u1") ("user") ("hi") none]) ("u1") rfl
      rfl).2.2.2.2.2.2.2.2.2.2.2⟩

/-- After a username update, the stored username is the new one (sqlite). -/
theorem get_username_update_sql (s : SqliteStore) (u n : String) :
    Sqlite.get_username (Sqlite.update_username s u n) u = n := by
  unfold Sqlite.update_username Sqlite.get_username
  cases h : s.users.lookup u with
  | some w =>
    dsimp only
    rw [lookup_upd]
    simp only [BEq.refl, if_true]
    rw [h]
    rfl
  | none =>
    dsimp only
    rw [lookup_append_none _ _ _ h, lookup_singleton_self]

/-- Effect of `_ensure_user_exists` with a passed username on the stored
username (sqlite): it wins unless empty, in which case nothing changes. -/
theorem get_username_ensure_sql (s : SqliteStore) (u n : String) :
    Sqlite.get_username (Sqlite.ensure_user_exists s u (some n)) u
      = if n = "" then Sqlite.get_username s u else n := by
  unfold Sqlite.ensure_user_exists Sqlite.get_username
  cases h : s.users.lookup u with
  | none =>
    dsimp only
    rw [lookup_append_none _ _ _ h, lookup_singleton_self]
    by_cases hn : n = "" <;> simp [hn]
  | some w =>
    dsimp only
    by_cases hn : n = ""
    · rw [if_neg (not_not_intro hn), if_pos hn]
      rw [h]
    · rw [if_pos hn, if_neg hn]
      dsimp only
      rw [lookup_upd]
      simp only [BEq.refl, if_true]
      rw [h]
      rfl

/-- Username after `add_message` (sqlite): the passed one if non-empty,
otherwise unchanged. -/
theorem get_username_add_sql (maxLen : Nat) (s : SqliteStore) (u r c : String)
    (un : Option String) :
    Sqlite.get_username (Sqlite.add_message maxLen s u r c un) u
      = if (un.getD ("")) = "" then Sqlite.get_username s u else un.getD ("") := by
  unfold Sqlite.add_message
  by_cases h : (un.getD ("")) = ""
  · rw [if_pos h]
    dsimp only
    rw [if_neg (not_not_intro h)]
    show Sqlite.get_username
        (Sqlite.ensure_user_exists s u (some (Sqlite.get_username s u))) u
      = Sqlite.get_username s u
    rw [get_username_ensure_sql]
    exact ite_self _
  · rw [if_neg h]
    dsimp only
    rw [if_pos h]
    show Sqlite.get_username
        (Sqlite.ensure_user_exists (Sqlite.update_username s u (un.getD (""))) u
          (some (un.getD ("")))) u
      = un.getD ("")
    rw [get_username_ensure_sql, if_neg h]

/-- Username after `add_message` (json): the passed one if non-empty,
otherwise unchanged. -/
theorem get_username_add_json (maxLen : Nat) (j : JsonStore) (u r c : String)
    (un : Option String) :
    Json.get_username (Json.add_message maxLen j u r c un) u
      = if (un.getD ("")) = "" then Json.get_username j u else un.getD ("") := by
  unfold Json.add_message Json.update_username
  by_cases h : (un.getD ("")) = ""
  · rw [if_pos h]
    dsimp only
    rw [if_neg (not_not_intro h)]
    dsimp only
    cases hu : j.data.lookup u with
    | some w =>
      unfold Json.get_username
      dsimp only
      rw [lookup_dictSet_self, hu]
    | none =>
      unfold Json.get_username
      dsimp only
      rw [lookup_dictSet_self, hu]
  · rw [if_neg h]
    dsimp only
    rw [if_pos h]
    dsimp only
    cases hu : j.data.lookup u with
    | some w =>
      dsimp only
      rw [lookup_dictSet_self]
      dsimp only
      unfold Json.get_username
      rw [lookup_dictSet_self]
    | none =>
      dsimp only
      rw [lookup_dictSet_self]
      dsimp only
      unfold Json.get_username
      rw [lookup_dictSet_self]


/-- C9: `add_message` with a non-empty username overwrites the stored display
name with it as a side effect; with the username omitted, the observable
display name is unchanged, in both variants. -/
theorem c9_add_message_username (maxLen : Nat) (s : SqliteStore) (j : JsonStore)
    (u r c n : String) (hn : n ≠ "") :
    Sqlite.get_username (Sqlite.add_message maxLen s u r c (some n)) u = n
    ∧ Json.get_username (Json.add_message maxLen j u r c (some n)) u = n
    ∧ Sqlite.get_username (Sqlite.add_message maxLen s u r c none) u
        = Sqlite.get_username s u
    ∧ Json.get_username (Json.add_message maxLen j u r c none) u
        = Json.get_username j u := by
  refine ⟨?_, ?_, ?_, ?_⟩
  · rw [get_username_add_sql]
    exact if_neg hn
  · rw [get_username_add_json]
    exact if_neg hn
  · rw [get_username_add_sql]
    rfl
  · rw [get_username_add_json]
    rfl

/-- Witness for C9 at fresh stores, the user `"u1"` and the name `"Alice"`. -/
theorem c9_add_message_username_witness :
    (("Alice" : String) ≠ "")
    ∧ Sqlite.get_username (Sqlite.add_message 10 sqliteInit ("u1") ("user") ("hi") (some ("Alice")))
        ("u1") = ("Alice")
    ∧ Json.get_username (Json.add_message 10 jsonInit ("u1") ("user") ("hi") (some ("Alice")))
        ("u1") = ("Alice") :=
  ⟨by decide,
   (c9_add_message_username 10 sqliteInit jsonInit ("u1") ("user") ("hi") ("Alice")
      (by decide)).1,
   (c9_add_message_username 10 sqliteInit jsonInit ("u1") ("user") ("hi") ("Alice")
      (by decide)).2.1⟩

/-- A role is never both system and user/assistant. -/
theorem roleAnd_false (m : ChatMsg) :
    (m.role == ("system") && (m.role == ("user") || m.role == ("assistant"))) = false := by
  cases hs : m.role == ("system") with
  | false => rfl
  | true =>
    have hr : m.role = ("system") := eq_of_beq hs
    rw [hr]
    rfl

/-- Shared-context history slices contribute no system-role entries. -/
theorem slice_sys_filter (L : List ChatMsg) :
    L.filter (fun m => m.role == ("system") && (m.role == ("user") || m.role == ("assistant")))
      = [] := by
  induction L with
  | nil => rfl
  | cons m t ih =>
    rw [List.filter_cons, roleAnd_false]
    simpa using ih

/-- Unfolding of the shared block on a cons cell. -/
theorem sharedBlock_cons (e : String × List ChatMsg) (t : List (String × List ChatMsg))
    (cuid : Option String) (um : Option (List (String × String))) :
    sharedBlock (e :: t) cuid um = userBlock um cuid e ++ sharedBlock t cuid um := by
  unfold sharedBlock
  rw [List.map_cons, List.flatten_cons]

/-- System-role count of the shared block: one marker per contributing user
(an entry contributes when it is not the current user and has history). -/
theorem sharedBlock_sys_count (g : List (String × List ChatMsg)) (cuid : Option String)
    (um : Option (List (String × String))) :
    ((sharedBlock g cuid um).filter (fun m => m.role == ("system"))).length
      = (g.filter (fun e => !(decide (cuid = some e.1)) && !(e.2.isEmpty))).length := by
  induction g with
  | nil => rfl
  | cons e t ih =>
    rw [sharedBlock_cons, List.filter_append, List.length_append, ih, List.filter_cons]
    by_cases hc : cuid = some e.1
    · simp [userBlock, hc]
    · cases hm : e.2 with
      | nil => simp [userBlock, hm, hc]
      | cons a l =>
        have hz := slice_sys_filter (pyLastSlice 3 (a :: l))
        simp [userBlock, hm, hc, List.filter_cons, hz]
        try omega

/-- Composition without shared context: the synthesized system message in
front of the system-stripped history. -/
theorem composeMessages_none (messages : List ChatMsg) (p : String)
    (cuid cun : Option String) (um : Option (List (String × String))) (inu : Bool) :
    composeMessages messages p none cuid cun um inu
      = (⟨("system"),
          enhance_system_prompt (personalityData p).2 (personalityData p).1 cun um inu⟩
          : ChatMsg)
        :: messages.filter (fun m => m.role != ("system")) := rfl

/-- Composition with shared context requested: the shared block (empty for a
falsy `global_context`) precedes the system-prepended own history. -/
theorem composeMessages_decomp (messages : List ChatMsg) (p : String)
    (gc : List (String × List ChatMsg)) (cuid cun : Option String)
    (um : Option (List (String × String))) (inu : Bool) :
    composeMessages messages p (some gc) cuid cun um inu
      = (if gc = [] then [] else sharedBlock gc cuid um)
        ++ composeMessages messages p none cuid cun um inu := by
  unfold composeMessages
  by_cases hg : gc = [] <;> simp [hg]

/-- Stripping system entries really leaves none. -/
theorem stripped_sys_filter (messages : List ChatMsg) :
    (messages.filter (fun m => m.role != ("system"))).filter
      (fun m => m.role == ("system")) = [] :=
  filter_not_filter (fun m => m.role == ("system")) messages

/-- C5: shared context built for a target user consists exactly of one block
per other user with non-empty history — a system marker naming that user
followed by their last three messages restricted to user/assistant roles —
the target user's own entries contribute nothing, and the whole block sits
before the target user's own message list. -/
theorem c5_shared_context_exclusion (gc : List (String × List ChatMsg)) (target : String)
    (um : Option (List (String × String))) (messages : List ChatMsg) (p : String)
    (cun : Option String) (inu : Bool) :
    sharedBlock gc (some target) um
      = ((gc.filter (fun e => !(e.1 == target) && !(e.2.isEmpty))).map
          (fun e =>
            (⟨("system"), "[Context from " ++ contextUsername um e.1 ++ "]"⟩ : ChatMsg) ::
              (pyLastSlice 3 e.2).filter
                (fun m => m.role == ("user") || m.role == ("assistant")))).flatten
    ∧ sharedBlock gc (some target) um
        = sharedBlock (gc.filter (fun e => !(e.1 == target))) (some target) um
    ∧ composeMessages messages p (some gc) (some target) cun um inu
      = sharedBlock gc (some target) um
        ++ (⟨("system"),
            enhance_system_prompt (personalityData p).2 (personalityData p).1 cun um inu⟩
            : ChatMsg)
          :: messages.filter (fun m => m.role != ("system")) := by
  have h1 : ∀ (g : List (String × List ChatMsg)),
      sharedBlock g (some target) um
        = ((g.filter (fun e => !(e.1 == target) && !(e.2.isEmpty))).map
            (fun e =>
              (⟨("system"), "[Context from " ++ contextUsername um e.1 ++ "]"⟩ : ChatMsg) ::
                (pyLastSlice 3 e.2).filter
                  (fun m => m.role == ("user") || m.role == ("assistant")))).flatten := by
    intro g
    induction g with
    | nil => rfl
    | cons e t ih =>
      rw [sharedBlock_cons, ih, List.filter_cons]
      by_cases hc : target = e.1
      · have hb : (e.1 == target) = true := beq_iff_eq.mpr hc.symm
        simp [userBlock, hc, hb]
      · have hb : (e.1 == target) = false := beq_eq_false_iff_ne.mpr (fun h => hc h.symm)
        have hc2 : ¬(some target = some (e.1 : String)) := fun h => hc (by injection h)
        cases hm : e.2 with
        | nil => simp [userBlock, hm, hb, hc2]
        | cons a l => simp [userBlock, hm, hb, hc2]
  refine ⟨h1 gc, ?_, ?_⟩
  · rw [h1 gc, h1 (gc.filter (fun e => !(e.1 == target))), List.filter_filter]
    congr 2
    apply List.filter_congr
    intro e _
    cases ht : e.1 == target <;> cases hm2 : e.2.isEmpty <;> simp [ht, hm2]
  · rw [composeMessages_decomp, composeMessages_none]
    by_cases hg : gc = [] <;> simp [hg, sharedBlock]

/-- C1 counterexample: with cross-user shared context supplied, the final
list has two system-role messages and its first element is the shared-context
marker, not the synthesized system message. -/
theorem c1_counterexample :
    ((composeMessages [] ("default") (some [(("u2"), [⟨("user"), ("hi")⟩])])
        (some ("u1")) none none false).filter (fun m => m.role == ("system"))).length = 2
    ∧ (composeMessages [] ("default") (some [(("u2"), [⟨("user"), ("hi")⟩])])
        (some ("u1")) none none false).head?
      = some ⟨("system"), ("[Context from user u2]")⟩ := ⟨rfl, rfl⟩

/-- C1 as amended: without shared context the assembled list has exactly one
system-role message and it sits at index 0; when shared context contributes,
the final list is the shared block followed by that single-system list, so it
carries one extra system-role marker per contributing other user and the
synthesized system message sits immediately after the shared block. -/
theorem c1_amended (messages : List ChatMsg) (p : String) (cuid cun : Option String)
    (um : Option (List (String × String))) (inu : Bool) :
    ((composeMessages messages p none cuid cun um inu).filter
        (fun m => m.role == ("system"))).length = 1
    ∧ (composeMessages messages p none cuid cun um inu).head?
        = some ⟨("system"),
            enhance_system_prompt (personalityData p).2 (personalityData p).1 cun um inu⟩
    ∧ (∀ g, composeMessages messages p (some g) cuid cun um inu
        = (if g = [] then [] else sharedBlock g cuid um)
          ++ composeMessages messages p none cuid cun um inu)
    ∧ (∀ g, ((composeMessages messages p (some g) cuid cun um inu).filter
          (fun m => m.role == ("system"))).length
        = 1 + (g.filter (fun e => !(decide (cuid = some e.1)) && !(e.2.isEmpty))).length) := by
  have hone : ((composeMessages messages p none cuid cun um inu).filter
      (fun m => m.role == ("system"))).length = 1 := by
    rw [composeMessages_none, List.filter_cons]
    simp [stripped_sys_filter messages]
  refine ⟨hone, by rw [composeMessages_none]; rfl, ?_, ?_⟩
  · intro g
    exact composeMessages_decomp messages p g cuid cun um inu
  · intro g
    rw [composeMessages_decomp, List.filter_append, List.length_append, hone]
    by_cases hg : g = []
    · simp [hg]
    · rw [if_neg hg, sharedBlock_sys_count]
      omega

/-- One trimmed append is exactly "keep the most recent `maxLen`". -/
theorem trimAppend_eq (maxLen : Nat) (l : List α) (x : α) :
    trimAppend maxLen l x = (l ++ [x]).drop ((l ++ [x]).length - maxLen) := by
  unfold trimAppend
  by_cases h : (l ++ [x]).length > maxLen
  · rw [if_pos h]
  · rw [if_neg h]
    have hz : (l ++ [x]).length - maxLen = 0 := by omega
    rw [hz, List.drop_zero]

/-- Keeping the last `n` is stable under earlier truncation. -/
theorem lastN_append (n : Nat) (X B : List α) :
    ((X.drop (X.length - n)) ++ B).drop (((X.drop (X.length - n)) ++ B).length - n)
      = (X ++ B).drop ((X ++ B).length - n) := by
  rw [List.drop_append_eq_append_drop, List.drop_append_eq_append_drop, List.drop_drop,
      List.length_append, List.length_append, List.length_drop]
  congr 1
  · congr 1
    omega
  · congr 1
    omega

/-- Folding trimmed appends over a non-empty batch keeps exactly the most
recent `maxLen` of everything. -/
theorem foldl_trimAppend (maxLen : Nat) :
    ∀ (L : List α) (x : α) (t0 : List α),
      (x :: L).foldl (trimAppend maxLen) t0
        = (t0 ++ x :: L).drop ((t0 ++ x :: L).length - maxLen)
  | [], x, t0 => by
    rw [List.foldl_cons]
    simpa using trimAppend_eq maxLen t0 x
  | y :: L2, x, t0 => by
    rw [List.foldl_cons, foldl_trimAppend maxLen L2 y (trimAppend maxLen t0 x),
        trimAppend_eq maxLen t0 x]
    have h := lastN_append maxLen (t0 ++ [x]) (y :: L2)
    rw [List.length_append] at h
    rw [List.length_append] at h
    rw [List.append_assoc] at h
    simpa using h

/-- When the batch alone reaches the bound, the prior history is gone. -/
theorem lastN_concat_ge (n : Nat) (A L : List α) (h : n ≤ L.length) :
    (A ++ L).drop ((A ++ L).length - n) = L.drop (L.length - n) := by
  rw [List.drop_append_eq_append_drop, List.length_append]
  rw [List.drop_eq_nil_of_le (by omega)]
  rw [List.nil_append]
  congr 1
  omega

/-- A username update never touches any message list. -/
theorem userMsgsJson_update (j : JsonStore) (u n u2 : String) :
    userMsgsJson (Json.update_username j u n) u2 = userMsgsJson j u2 := by
  unfold Json.update_username userMsgsJson
  cases hu : j.data.lookup u with
  | none =>
    dsimp only
    by_cases h2 : u2 = u
    · subst h2
      rw [lookup_dictSet_self, hu]
      rfl
    · have hb : (u2 == u) = false := beq_eq_false_iff_ne.mpr h2
      rw [lookup_dictSet_ne _ _ _ _ hb]
  | some w =>
    dsimp only
    by_cases h2 : u2 = u
    · subst h2
      rw [lookup_dictSet_self, hu]
      rfl
    · have hb : (u2 == u) = false := beq_eq_false_iff_ne.mpr h2
      rw [lookup_dictSet_ne _ _ _ _ hb]

/-- The json trim commutes with the role/content projection. -/
theorem map_trim_json (maxLen : Nat) (hm : 0 < maxLen) (l : List Msg) (m : Msg) :
    ((if (l ++ [m]).length > maxLen then pyLastSlice maxLen (l ++ [m]) else l ++ [m]).map
        (fun x => (x.role, x.content)))
      = trimAppend maxLen (l.map (fun x => (x.role, x.content))) (m.role, m.content) := by
  have hne : maxLen ≠ 0 := by omega
  unfold pyLastSlice trimAppend
  rw [if_neg hne]
  by_cases h : (l ++ [m]).length > maxLen
  · rw [if_pos h, if_pos (by simpa using h)]
    rw [List.map_drop]
    simp [List.length_append, List.length_map]
  · rw [if_neg h, if_neg (by simpa using h)]
    simp

/-- One json append transforms the user's trace by a trimmed append. -/
theorem userMsgsJson_add (maxLen : Nat) (hm : 0 < maxLen) (j : JsonStore)
    (u r c : String) (un : Option String) :
    userMsgsJson (Json.add_message maxLen j u r c un) u
      = trimAppend maxLen (userMsgsJson j u) (r, c) := by
  unfold Json.add_message
  dsimp only
  by_cases h : (un.getD ("")) = ""
  · rw [if_neg (not_not_intro h)]
    dsimp only
    cases hu : j.data.lookup u with
    | some w =>
      dsimp only
      unfold userMsgsJson
      rw [lookup_dictSet_self, hu]
      dsimp only [Option.elim]
      exact map_trim_json maxLen hm w.messages _
    | none =>
      dsimp only
      unfold userMsgsJson
      rw [lookup_dictSet_self, hu]
      dsimp only [Option.elim]
      exact map_trim_json maxLen hm [] _
  · rw [if_pos h]
    dsimp only
    cases hu : (Json.update_username j u (un.getD (""))).data.lookup u with
    | some w =>
      dsimp only
      unfold userMsgsJson
      rw [lookup_dictSet_self]
      dsimp only [Option.elim]
      rw [map_trim_json maxLen hm w.messages _]
      have h2 := userMsgsJson_update j u (un.getD ("")) u
      unfold userMsgsJson at h2
      rw [hu] at h2
      dsimp only [Option.elim] at h2
      rw [← h2]
    | none =>
      exfalso
      unfold Json.update_username at hu
      cases hju : j.data.lookup u with
      | none =>
        rw [hju] at hu
        dsimp only at hu
        rw [lookup_dictSet_self] at hu
        exact Option.noConfusion hu
      | some w2 =>
        rw [hju] at hu
        dsimp only at hu
        rw [lookup_dictSet_self] at hu
        exact Option.noConfusion hu

/-- The raw history read is the role/content trace, json variant. -/
theorem history_false_eq_json (j : JsonStore) (u : String) :
    Json.get_conversation_history j u false
      = (userMsgsJson j u).map (fun rc => (⟨rc.1, rc.2⟩ : ChatMsg)) := by
  unfold Json.get_conversation_history userMsgsJson
  cases hu : j.data.lookup u with
  | none => rfl
  | some w =>
    dsimp only [Option.elim]
    simp [List.map_map]

/-- Trimmed appends commute with any projection. -/
theorem map_trimAppend (f : α → β) (maxLen : Nat) (l : List α) (x : α) :
    (trimAppend maxLen l x).map f = trimAppend maxLen (l.map f) (f x) := by
  rw [trimAppend_eq, trimAppend_eq, List.map_drop, List.map_append]
  congr 1
  simp

/-- Inserting an element no smaller-ranked than everything appends it. -/
theorem orderedInsert_all_not (r : α → α → Prop) [DecidableRel r] (a : α) :
    ∀ (l : List α), (∀ b ∈ l, ¬ r a b) → l.orderedInsert r a = l ++ [a]
  | [], _ => rfl
  | b :: t, h => by
    rw [List.orderedInsert, if_neg (h b (by simp)), orderedInsert_all_not r a t
      (fun x hx => h x (by simp [hx]))]
    rfl

/-- Sorting strictly ascending timestamps in descending order reverses. -/
theorem insertionSort_tsGe_of_pairwise :
    ∀ (l : List SRow), l.Pairwise (fun a b => a.timestamp < b.timestamp) →
      l.insertionSort Sqlite.tsGe = l.reverse
  | [], _ => rfl
  | a :: t, h => by
    rw [List.pairwise_cons] at h
    rw [List.insertionSort, insertionSort_tsGe_of_pairwise t h.2, List.reverse_cons]
    apply orderedInsert_all_not
    intro b hb
    have hlt := h.1 b (List.mem_reverse.mp hb)
    unfold Sqlite.tsGe
    omega

/-- Dropping from a reverse is reversing a prefix. -/
theorem reverse_drop_take (l : List α) (k : Nat) :
    l.reverse.drop k = (l.take (l.length - k)).reverse := by
  have h := @List.reverse_drop α l.reverse k
  rw [List.reverse_reverse, List.length_reverse] at h
  calc l.reverse.drop k = (l.reverse.drop k).reverse.reverse := by
        rw [List.reverse_reverse]
    _ = (l.take (l.length - k)).reverse := by rw [h]

/-- Keep-side of the windowed DELETE: elements of the kept suffix survive,
elements of the dropped prefix die. -/
theorem filter_by_ids (del : List Nat) (T D : List SRow)
    (hT : ∀ m ∈ T, m.id ∈ del) (hD : ∀ m ∈ D, ¬ m.id ∈ del) :
    (T ++ D).filter (fun m => !(del.contains m.id)) = D := by
  rw [List.filter_append]
  have h1 : T.filter (fun m => !(del.contains m.id)) = [] := by
    rw [List.filter_eq_nil_iff]
    intro m hm
    simp [List.contains]
    exact hT m hm
  have h2 : D.filter (fun m => !(del.contains m.id)) = D := by
    rw [List.filter_eq_self]
    intro m hm
    simp [List.contains]
    exact hD m hm
  rw [h1, h2, List.nil_append]

/-- Strictly increasing ids make rows injective over their id. -/
theorem pairwise_lt_id_inj :
    ∀ (l : List SRow), l.Pairwise (fun a b => a.id < b.id) →
      ∀ a ∈ l, ∀ b ∈ l, a.id = b.id → a = b
  | [], _, a, ha, b, hb, heq => by simp at ha
  | x :: t, h, a, ha, b, hb, heq => by
    rw [List.pairwise_cons] at h
    rcases List.mem_cons.mp ha with ha1 | ha2 <;> rcases List.mem_cons.mp hb with hb1 | hb2
    · rw [ha1, hb1]
    · subst ha1
      have := h.1 b hb2
      omega
    · subst hb1
      have := h.1 a ha2
      omega
    · exact pairwise_lt_id_inj t h.2 a ha2 b hb2 heq

/-- Full analysis of the sqlite insert-and-trim step: the acting user's rows
undergo a trimmed append, other users' rows are untouched, and the message
log stays strictly increasing in timestamp and id. -/
theorem sqlInsertTrim_analysis (maxLen : Nat) (st2 : SqliteStore) (u r c : String) (t : Nat)
    (hPts : st2.messages.Pairwise (fun a b => a.timestamp < b.timestamp))
    (hPid : st2.messages.Pairwise (fun a b => a.id < b.id))
    (hts : ∀ m ∈ st2.messages, m.timestamp < t)
    (hid : ∀ m ∈ st2.messages, m.id < st2.next_id) :
    (sqlInsertTrim maxLen st2 u r c t).messages.filter (fun m => m.user_id == u)
        = trimAppend maxLen (st2.messages.filter (fun m => m.user_id == u))
            ⟨st2.next_id, u, r, c, t⟩
    ∧ (∀ u2, (u2 == u) = false →
        (sqlInsertTrim maxLen st2 u r c t).messages.filter (fun m => m.user_id == u2)
          = st2.messages.filter (fun m => m.user_id == u2))
    ∧ (sqlInsertTrim maxLen st2 u r c t).messages.Pairwise
        (fun a b => a.timestamp < b.timestamp)
    ∧ (sqlInsertTrim maxLen st2 u r c t).messages.Pairwise (fun a b => a.id < b.id)
    ∧ (∀ m ∈ (sqlInsertTrim maxLen st2 u r c t).messages, m.timestamp ≤ t)
    ∧ (∀ m ∈ (sqlInsertTrim maxLen st2 u r c t).messages, m.id < st2.next_id + 1)
    ∧ (sqlInsertTrim maxLen st2 u r c t).users = st2.users
    ∧ (sqlInsertTrim maxLen st2 u r c t).next_id = st2.next_id + 1
    ∧ (sqlInsertTrim maxLen st2 u r c t).clock = st2.clock + 1 := by
  unfold sqlInsertTrim
  dsimp only
  set row : SRow := (⟨st2.next_id, u, r, c, t⟩ : SRow) with hrow
  set msgs2 : List SRow := st2.messages ++ [row] with hmsgs2
  have hP2ts : msgs2.Pairwise (fun a b => a.timestamp < b.timestamp) := by
    rw [hmsgs2, List.pairwise_append]
    refine ⟨hPts, by simp, ?_⟩
    intro a ha b hb
    rw [List.mem_singleton] at hb
    subst hb
    exact hts a ha
  have hP2id : msgs2.Pairwise (fun a b => a.id < b.id) := by
    rw [hmsgs2, List.pairwise_append]
    refine ⟨hPid, by simp, ?_⟩
    intro a ha b hb
    rw [List.mem_singleton] at hb
    subst hb
    exact hid a ha
  set mu : List SRow := msgs2.filter (fun m => m.user_id == u) with hmu
  have hMuTs : mu.Pairwise (fun a b => a.timestamp < b.timestamp) := hP2ts.filter _
  have hMuId : mu.Pairwise (fun a b => a.id < b.id) := hP2id.filter _
  have hsort : mu.insertionSort Sqlite.tsGe = mu.reverse :=
    insertionSort_tsGe_of_pairwise mu hMuTs
  have hdel : ((mu.insertionSort Sqlite.tsGe).drop maxLen).map (fun m => m.id)
      = ((mu.take (mu.length - maxLen)).map (fun m => m.id)).reverse := by
    rw [hsort, reverse_drop_take, List.map_reverse]
  rw [hdel]
  set del : List Nat := ((mu.take (mu.length - maxLen)).map (fun m => m.id)).reverse
    with hdel2
  have hTmem : ∀ m ∈ mu.take (mu.length - maxLen), m.id ∈ del := by
    intro m hm
    rw [hdel2, List.mem_reverse]
    exact List.mem_map.mpr ⟨m, hm, rfl⟩
  have hDmem : ∀ m ∈ mu.drop (mu.length - maxLen), ¬ m.id ∈ del := by
    intro m hm hmem
    rw [hdel2, List.mem_reverse] at hmem
    obtain ⟨a, ha, haid⟩ := List.mem_map.mp hmem
    have hsplit : List.Pairwise (fun a b => a.id < b.id)
        (mu.take (mu.length - maxLen) ++ mu.drop (mu.length - maxLen)) := by
      rw [List.take_append_drop]
      exact hMuId
    have hcross := (List.pairwise_append.mp hsplit).2.2 a ha m hm
    omega
  have hmain : (msgs2.filter (fun m => !(del.contains m.id))).filter
        (fun m => m.user_id == u)
      = mu.drop (mu.length - maxLen) := by
    rw [List.filter_comm, ← hmu]
    calc mu.filter (fun m => !(del.contains m.id))
        = (mu.take (mu.length - maxLen) ++ mu.drop (mu.length - maxLen)).filter
            (fun m => !(del.contains m.id)) := by rw [List.take_append_drop]
      _ = mu.drop (mu.length - maxLen) := filter_by_ids del _ _ hTmem hDmem
  have hmu2 : mu = (st2.messages.filter (fun m => m.user_id == u)) ++ [row] := by
    rw [hmu, hmsgs2, List.filter_append]
    congr 1
    rw [List.filter_cons]
    have : (row.user_id == u) = true := by
      rw [hrow]
      exact beq_iff_eq.mpr rfl
    rw [this]
    rfl
  have htrim : trimAppend maxLen (st2.messages.filter (fun m => m.user_id == u)) row
      = mu.drop (mu.length - maxLen) := by
    rw [trimAppend_eq, hmu2]
  refine ⟨?_, ?_, hP2ts.filter _, hP2id.filter _, ?_, ?_, rfl, rfl, rfl⟩
  · rw [hmain, htrim]
  · intro u2 h2
    rw [List.filter_comm]
    have hrowu2 : msgs2.filter (fun m => m.user_id == u2)
        = st2.messages.filter (fun m => m.user_id == u2) := by
      rw [hmsgs2, List.filter_append, List.filter_cons]
      have : (row.user_id == u2) = false := by
        rw [hrow]
        exact beq_eq_false_iff_ne.mpr (fun h => (beq_eq_false_iff_ne.mp h2) h.symm)
      rw [this]
      simp
    rw [hrowu2, List.filter_eq_self]
    intro m hm
    have hmu2' : m.user_id = u2 := eq_of_beq (List.mem_filter.mp hm).2
    have hmmsgs : m ∈ msgs2 := by
      rw [hmsgs2]
      exact List.mem_append_left _ (List.mem_filter.mp hm).1
    simp [List.contains]
    intro hmem
    rw [hdel2, List.mem_reverse] at hmem
    obtain ⟨a, ha, haid⟩ := List.mem_map.mp hmem
    have hamu : a ∈ mu := List.take_subset _ _ ha
    have hau : a.user_id = u := eq_of_beq (List.mem_filter.mp hamu).2
    have hames : a ∈ msgs2 := (List.mem_filter.mp hamu).1
    have : a = m := pairwise_lt_id_inj msgs2 hP2id a hames m hmmsgs haid
    rw [this] at hau
    exact (beq_eq_false_iff_ne.mp h2) (hmu2' ▸ hau.symm ▸ rfl)
  · intro m hm
    have hm2 : m ∈ msgs2 := List.mem_of_mem_filter hm
    rw [hmsgs2] at hm2
    rcases List.mem_append.mp hm2 with h1 | h1
    · exact Nat.le_of_lt (hts m h1)
    · rw [List.mem_singleton] at h1
      subst h1
      exact Nat.le_refl _
  · intro m hm
    have hm2 : m ∈ msgs2 := List.mem_of_mem_filter hm
    rw [hmsgs2] at hm2
    rcases List.mem_append.mp hm2 with h1 | h1
    · have := hid m h1
      omega
    · rw [List.mem_singleton] at h1
      subst h1
      exact Nat.lt_succ_self _

/-- A username update touches only the users table and the clock (sqlite). -/
theorem update_username_frame_sql (s : SqliteStore) (u n : String) :
    (Sqlite.update_username s u n).messages = s.messages
    ∧ (Sqlite.update_username s u n).next_id = s.next_id
    ∧ (Sqlite.update_username s u n).meta = s.meta
    ∧ s.clock ≤ (Sqlite.update_username s u n).clock := by
  unfold Sqlite.update_username
  cases h : s.users.lookup u <;> exact ⟨rfl, rfl, rfl, Nat.le_succ _⟩

/-- `_ensure_user_exists` touches only the users table and the clock. -/
theorem ensure_frame_sql (s : SqliteStore) (u : String) (un : Option String) :
    (Sqlite.ensure_user_exists s u un).messages = s.messages
    ∧ (Sqlite.ensure_user_exists s u un).next_id = s.next_id
    ∧ (Sqlite.ensure_user_exists s u un).meta = s.meta
    ∧ s.clock ≤ (Sqlite.ensure_user_exists s u un).clock := by
  unfold Sqlite.ensure_user_exists
  cases h : s.users.lookup u with
  | none => exact ⟨rfl, rfl, rfl, Nat.le_succ _⟩
  | some w =>
    dsimp only
    cases un with
    | none => exact ⟨rfl, rfl, rfl, Nat.le_refl _⟩
    | some nm =>
      dsimp only
      by_cases hn : nm = ""
      · rw [if_neg (not_not_intro hn)]
        exact ⟨rfl, rfl, rfl, Nat.le_refl _⟩
      · rw [if_pos hn]
        exact ⟨rfl, rfl, rfl, Nat.le_refl _⟩

/-- The sqlite `add_message` factors through the insert-and-trim step. -/
theorem add_message_decomp (maxLen : Nat) (s : SqliteStore) (u r c : String)
    (un : Option String) :
    Sqlite.add_message maxLen s u r c un
      = sqlInsertTrim maxLen
          (Sqlite.ensure_user_exists
            (if un.getD ("") ≠ "" then Sqlite.update_username s u (un.getD ("")) else s)
            u (some (if un.getD ("") ≠ "" then un.getD ("") else Sqlite.get_username s u)))
          u r c s.clock := by
  unfold Sqlite.add_message sqlInsertTrim
  dsimp only
  by_cases h : un.getD ("") = ""
  · rw [if_neg (not_not_intro h), if_neg (not_not_intro h), if_neg (not_not_intro h)]
  · rw [if_pos h, if_pos h, if_pos h]

/-- One sqlite append preserves the store invariant, performs a trimmed
append on the acting user's trace, and leaves other users' traces alone. -/
theorem sql_add_analysis (maxLen : Nat) (s : SqliteStore) (hInv : SqlInv s)
    (u r c : String) (un : Option String) :
    SqlInv (Sqlite.add_message maxLen s u r c un)
    ∧ userMsgsSql (Sqlite.add_message maxLen s u r c un) u
        = trimAppend maxLen (userMsgsSql s u) (r, c)
    ∧ (∀ u2, u2 ≠ u →
        userMsgsSql (Sqlite.add_message maxLen s u r c un) u2 = userMsgsSql s u2)
    ∧ (Sqlite.add_message maxLen s u r c un).next_id = s.next_id + 1
    ∧ s.clock < (Sqlite.add_message maxLen s u r c un).clock := by
  obtain ⟨hPts, hPid, htsc, hidn⟩ := hInv
  have hfr1 : (if un.getD ("") ≠ "" then Sqlite.update_username s u (un.getD ("")) else s).messages
        = s.messages
      ∧ (if un.getD ("") ≠ "" then Sqlite.update_username s u (un.getD ("")) else s).next_id
        = s.next_id
      ∧ s.clock ≤ (if un.getD ("") ≠ "" then Sqlite.update_username s u (un.getD ("")) else s).clock := by
    by_cases h : un.getD ("") = ""
    · rw [if_neg (not_not_intro h)]
      exact ⟨rfl, rfl, Nat.le_refl _⟩
    · rw [if_pos h]
      obtain ⟨a, b, _, d⟩ := update_username_frame_sql s u (un.getD (""))
      exact ⟨a, b, d⟩
  obtain ⟨hfe1, hfe2, _, hfe3⟩ := ensure_frame_sql
    (if un.getD ("") ≠ "" then Sqlite.update_username s u (un.getD ("")) else s) u
    (some (if un.getD ("") ≠ "" then un.getD ("") else Sqlite.get_username s u))
  have hm2 : (Sqlite.ensure_user_exists
      (if un.getD ("") ≠ "" then Sqlite.update_username s u (un.getD ("")) else s)
      u (some (if un.getD ("") ≠ "" then un.getD ("") else Sqlite.get_username s u))).messages
      = s.messages := by rw [hfe1, hfr1.1]
  have hn2 : (Sqlite.ensure_user_exists
      (if un.getD ("") ≠ "" then Sqlite.update_username s u (un.getD ("")) else s)
      u (some (if un.getD ("") ≠ "" then un.getD ("") else Sqlite.get_username s u))).next_id
      = s.next_id := by rw [hfe2, hfr1.2.1]
  have hc2 : s.clock ≤ (Sqlite.ensure_user_exists
      (if un.getD ("") ≠ "" then Sqlite.update_username s u (un.getD ("")) else s)
      u (some (if un.getD ("") ≠ "" then un.getD ("") else Sqlite.get_username s u))).clock :=
    Nat.le_trans hfr1.2.2 hfe3
  obtain ⟨A1, A2, A3, A4, A5, A6, A7, A8, A9⟩ := sqlInsertTrim_analysis maxLen
    (Sqlite.ensure_user_exists
      (if un.getD ("") ≠ "" then Sqlite.update_username s u (un.getD ("")) else s)
      u (some (if un.getD ("") ≠ "" then un.getD ("") else Sqlite.get_username s u)))
    u r c s.clock
    (by rw [hm2]; exact hPts)
    (by rw [hm2]; exact hPid)
    (by rw [hm2]; exact htsc)
    (by rw [hm2, hn2]; exact hidn)
  rw [add_message_decomp maxLen s u r c un]
  refine ⟨⟨A3, A4, ?_, ?_⟩, ?_, ?_, ?_, ?_⟩
  · intro m hm
    have := A5 m hm
    rw [A9] at *
    omega
  · intro m hm
    have := A6 m hm
    rw [A8, hn2]
    rw [hn2] at this
    exact this
  · unfold userMsgsSql
    rw [A1, hm2]
    have := map_trimAppend (fun m : SRow => (m.role, m.content)) maxLen
      (s.messages.filter (fun m => m.user_id == u))
      ⟨(Sqlite.ensure_user_exists
          (if un.getD ("") ≠ "" then Sqlite.update_username s u (un.getD ("")) else s)
          u (some (if un.getD ("") ≠ "" then un.getD ("") else Sqlite.get_username s u))).next_id,
        u, r, c, s.clock⟩
    rw [hm2] at A1
    exact this
  · intro u2 h2
    unfold userMsgsSql
    rw [A2 u2 (beq_eq_false_iff_ne.mpr h2), hm2]
  · rw [A8, hn2]
  · rw [A9]
    omega

/-- The raw history read is the role/content trace, sqlite variant. -/
theorem history_false_eq_sql (s : SqliteStore) (hInv : SqlInv s) (u : String) :
    Sqlite.get_conversation_history s u false
      = (userMsgsSql s u).map (fun rc => (⟨rc.1, rc.2⟩ : ChatMsg)) := by
  unfold Sqlite.get_conversation_history userMsgsSql
  dsimp only
  have hsorted : (s.messages.filter (fun m => m.user_id == u)).Sorted Sqlite.tsLe := by
    apply List.Pairwise.imp ?_ (hInv.1.filter _)
    intro a b h
    unfold Sqlite.tsLe
    omega
  rw [List.Sorted.insertionSort_eq hsorted]
  simp [List.map_map]

/-- The fresh sqlite store is well-formed. -/
theorem sqlInv_init : SqlInv sqliteInit :=
  ⟨List.Pairwise.nil, List.Pairwise.nil,
   fun m hm => by simp [sqliteInit] at hm,
   fun m hm => by simp [sqliteInit] at hm⟩

/-- Batch appends act as folded trimmed appends, json variant. -/
theorem json_appendAll (maxLen : Nat) (hm : 0 < maxLen) :
    ∀ (L : List (String × String)) (j : JsonStore) (u : String),
      userMsgsJson (appendAllJson maxLen j u L) u
        = L.foldl (trimAppend maxLen) (userMsgsJson j u)
  | [], _, _ => rfl
  | x :: L2, j, u => by
    unfold appendAllJson
    rw [List.foldl_cons, List.foldl_cons]
    have ih := json_appendAll maxLen hm L2 (Json.add_message maxLen j u x.1 x.2 none) u
    unfold appendAllJson at ih
    rw [ih, userMsgsJson_add maxLen hm j u x.1 x.2 none]

/-- Batch appends preserve the invariant and act as folded trimmed appends,
sqlite variant. -/
theorem sql_appendAll_analysis (maxLen : Nat) :
    ∀ (L : List (String × String)) (s : SqliteStore), SqlInv s → ∀ (u : String),
      SqlInv (appendAllSql maxLen s u L)
      ∧ userMsgsSql (appendAllSql maxLen s u L) u
          = L.foldl (trimAppend maxLen) (userMsgsSql s u)
  | [], _, hInv, _ => ⟨hInv, rfl⟩
  | x :: L2, s, hInv, u => by
    unfold appendAllSql
    rw [List.foldl_cons, List.foldl_cons]
    have step := sql_add_analysis maxLen s hInv u x.1 x.2 none
    have ih := sql_appendAll_analysis maxLen L2
      (Sqlite.add_message maxLen s u x.1 x.2 none) step.1 u
    unfold appendAllSql at ih
    refine ⟨ih.1, ?_⟩
    rw [ih.2, step.2.1]

/-- C4: after more than `MAX_CONTEXT_LENGTH` appends the history read returns
exactly the most recent `MAX_CONTEXT_LENGTH` appended messages in append
order (shown for the json variant from any store and for the sqlite variant
from a fresh store), and a single append always leaves at most
`MAX_CONTEXT_LENGTH` stored messages, the survivors being the most recent
suffix. -/
theorem c4_retention_bound (maxLen : Nat) (hm : 0 < maxLen) (u : String)
    (L : List (String × String)) (hN : L.length > maxLen) (j : JsonStore) :
    Json.get_conversation_history (appendAllJson maxLen j u L) u false
      = (L.drop (L.length - maxLen)).map (fun rc => (⟨rc.1, rc.2⟩ : ChatMsg))
    ∧ (Json.get_conversation_history (appendAllJson maxLen j u L) u false).length = maxLen
    ∧ (∀ (j2 : JsonStore) (r c : String) (un : Option String),
        (userMsgsJson (Json.add_message maxLen j2 u r c un) u).length ≤ maxLen
        ∧ userMsgsJson (Json.add_message maxLen j2 u r c un) u
          = ((userMsgsJson j2 u) ++ [(r, c)]).drop
              ((userMsgsJson j2 u).length + 1 - maxLen))
    ∧ Sqlite.get_conversation_history (appendAllSql maxLen sqliteInit u L) u false
      = (L.drop (L.length - maxLen)).map (fun rc => (⟨rc.1, rc.2⟩ : ChatMsg)) := by
  have hstep : ∀ (j2 : JsonStore) (r c : String) (un : Option String),
      (userMsgsJson (Json.add_message maxLen j2 u r c un) u).length ≤ maxLen
      ∧ userMsgsJson (Json.add_message maxLen j2 u r c un) u
        = ((userMsgsJson j2 u) ++ [(r, c)]).drop
            ((userMsgsJson j2 u).length + 1 - maxLen) := by
    intro j2 r c un
    constructor
    · rw [userMsgsJson_add maxLen hm, trimAppend_eq]
      rw [List.length_drop, List.length_append]
      omega
    · rw [userMsgsJson_add maxLen hm, trimAppend_eq]
      congr 1
      rw [List.length_append]
      rfl
  cases L with
  | nil => exact absurd hN (by simp)
  | cons x L2 =>
    have hjfold : userMsgsJson (appendAllJson maxLen j u (x :: L2)) u
        = (x :: L2).drop ((x :: L2).length - maxLen) := by
      rw [json_appendAll maxLen hm (x :: L2) j u, foldl_trimAppend,
        lastN_concat_ge maxLen _ _ (by simp at hN ⊢; omega)]
    obtain ⟨hInvF, hsfold⟩ := sql_appendAll_analysis maxLen (x :: L2) sqliteInit sqlInv_init u
    have hsfold2 : userMsgsSql (appendAllSql maxLen sqliteInit u (x :: L2)) u
        = (x :: L2).drop ((x :: L2).length - maxLen) := by
      rw [hsfold, foldl_trimAppend]
      have : userMsgsSql sqliteInit u = [] := rfl
      rw [this, List.nil_append]
    refine ⟨?_, ?_, hstep, ?_⟩
    · rw [history_false_eq_json, hjfold]
    · rw [history_false_eq_json, hjfold]
      rw [List.length_map, List.length_drop]
      simp at hN ⊢
      omega
    · rw [history_false_eq_sql _ hInvF, hsfold2]

/-- Witness for C4 with bound 2 and three appends. -/
theorem c4_retention_bound_witness :
    (0 < 2)
    ∧ ([(("user"), ("a")), (("user"), ("b")), (("user"), ("c"))] :
        List (String × String)).length > 2
    ∧ Json.get_conversation_history
        (appendAllJson 2 jsonInit ("u1")
          [(("user"), ("a")), (("user"), ("b")), (("user"), ("c"))]) ("u1") false
      = [⟨("user"), ("b")⟩, ⟨("user"), ("c")⟩]
    ∧ Sqlite.get_conversation_history
        (appendAllSql 2 sqliteInit ("u1")
          [(("user"), ("a")), (("user"), ("b")), (("user"), ("c"))]) ("u1") false
      = [⟨("user"), ("b")⟩, ⟨("user"), ("c")⟩] :=
  ⟨by decide, by decide,
   ((c4_retention_bound 2 (by decide) ("u1")
      [(("user"), ("a")), (("user"), ("b")), (("user"), ("c"))] (by decide) jsonInit).1).trans
     (by rfl),
   ((c4_retention_bound 2 (by decide) ("u1")
      [(("user"), ("a")), (("user"), ("b")), (("user"), ("c"))] (by decide)
      jsonInit).2.2.2).trans (by rfl)⟩

section AbsLemmas

variable {A B γ : Type}

/-- Equal key/value abstractions give pointwise-related lookups. -/
theorem lookup_map_eq_of_abs (f : A → γ) (g : B → γ) :
    ∀ (l1 : List (String × A)) (l2 : List (String × B)),
      l1.map (fun e => (e.1, f e.2)) = l2.map (fun e => (e.1, g e.2)) →
      ∀ k, (l1.lookup k).map f = (l2.lookup k).map g
  | [], [], _, _ => rfl
  | [], e :: t, h, _ => by simp at h
  | e :: t, [], h, _ => by simp at h
  | e :: t, e2 :: t2, h, k => by
    rw [List.map_cons, List.map_cons] at h
    injection h with h1 h2
    injection h1 with hk hv
    rw [lookup_cons_ite, lookup_cons_ite, hk]
    cases hke : k == e2.1 with
    | true =>
      simp only [if_true]
      simp [hv]
    | false =>
      simp only [Bool.false_eq_true, if_false]
      exact lookup_map_eq_of_abs f g t t2 h2 k

/-- An absent key is exactly a key outside the key list. -/
theorem lookup_none_iff_key (l : List (String × A)) (k : String) :
    l.lookup k = none ↔ ¬ k ∈ l.map Prod.fst := by
  induction l with
  | nil => simp
  | cons e t ih =>
    rw [lookup_cons_ite, List.map_cons]
    cases hke : k == e.1 with
    | true =>
      have : k = e.1 := eq_of_beq hke
      simp [this]
    | false =>
      have : ¬ (k = e.1) := by
        intro h
        rw [h] at hke
        simp at hke
      simp only [Bool.false_eq_true, if_false, List.mem_cons]
      rw [ih]
      constructor
      · intro h1 h2
        rcases h2 with h2 | h2
        · exact this h2
        · exact h1 h2
      · intro h1 h2
        exact h1 (Or.inr h2)

/-- Filtering away one key commutes with an entry-wise abstraction. -/
theorem filter_key_map (l : List (String × A)) (f : A → γ) (u : String) :
    (l.filter (fun e => !(e.1 == u))).map (fun e => (e.1, f e.2))
      = (l.map (fun e => (e.1, f e.2))).filter (fun t => !(t.1 == u)) := by
  induction l with
  | nil => rfl
  | cons e t ih =>
    rw [List.filter_cons, List.map_cons, List.filter_cons]
    cases he : e.1 == u with
    | true => simp only [he, Bool.not_true, Bool.false_eq_true, if_false]; exact ih
    | false =>
      simp only [he, Bool.not_false, if_true, List.map_cons]
      rw [ih]

/-- Keyed rewrites on the two stores preserve equal abstractions when the
rewriters agree on the abstraction. -/
theorem abs_upd_pair (f : A → γ) (g : B → γ) (u : String) (fS : A → A) (fJ : B → B)
    (hc : ∀ (a : A) (b : B), f a = g b → f (fS a) = g (fJ b)) :
    ∀ (l1 : List (String × A)) (l2 : List (String × B)),
      l1.map (fun e => (e.1, f e.2)) = l2.map (fun e => (e.1, g e.2)) →
      (l1.map (fun e => if e.1 == u then (e.1, fS e.2) else e)).map (fun e => (e.1, f e.2))
        = (l2.map (fun e => if e.1 == u then (e.1, fJ e.2) else e)).map
            (fun e => (e.1, g e.2))
  | [], [], _ => rfl
  | [], e :: t, h => by simp at h
  | e :: t, [], h => by simp at h
  | e :: t, e2 :: t2, h => by
    rw [List.map_cons, List.map_cons] at h
    injection h with h1 h2
    injection h1 with hk hv
    rw [List.map_cons, List.map_cons, List.map_cons, List.map_cons]
    rw [hk]
    congr 1
    · cases hke : e2.1 == u with
      | true =>
        simp only [if_true]
        rw [Prod.mk.injEq]
        exact ⟨rfl, hc e.2 e2.2 hv⟩
      | false =>
        simp only [Bool.false_eq_true, if_false]
        rw [Prod.mk.injEq]
        exact ⟨hk, hv⟩
    · exact abs_upd_pair f g u fS fJ hc t t2 h2

/-- A keyed rewrite that does not change the abstraction of the stored value
leaves the whole abstraction unchanged. -/
theorem abs_upd_keep (f : A → γ) (u : String) (fS : A → A) :
    ∀ (l : List (String × A)),
      (∀ w, l.lookup u = some w → f (fS w) = f w) →
      (l.map Prod.fst).Nodup →
      (l.map (fun e => if e.1 == u then (e.1, fS e.2) else e)).map (fun e => (e.1, f e.2))
        = l.map (fun e => (e.1, f e.2))
  | [], _, _ => rfl
  | e :: t, hw, hnd => by
    rw [List.map_cons] at hnd
    rw [List.map_cons, List.map_cons, List.map_cons]
    cases hke : e.1 == u with
    | true =>
      have hkey : e.1 = u := eq_of_beq hke
      have hlook : (e :: t).lookup u = some e.2 := by
        rw [lookup_cons_ite]
        have : (u == e.1) = true := by rw [hkey]; simp
        rw [this]
        simp
      simp only [if_true]
      congr 1
      · rw [Prod.mk.injEq]
        exact ⟨rfl, hw e.2 hlook⟩
      · have hnotin : ¬ u ∈ t.map Prod.fst := by
          rw [← hkey]
          exact (List.nodup_cons.mp hnd).1
        have hnone : t.lookup u = none := (lookup_none_iff_key t u).mpr hnotin
        have : t.map (fun e => if e.1 == u then (e.1, fS e.2) else e) = t.map id := by
          apply List.map_congr_left
          intro x hx
          have : ¬ (x.1 = u) := by
            intro hxu
            exact hnotin (hxu ▸ List.mem_map.mpr ⟨x, hx, rfl⟩)
          rw [if_neg (by simpa using this)]
          rfl
        rw [this, List.map_id]
    | false =>
      simp only [Bool.false_eq_true, if_false]
      congr 1
      apply abs_upd_keep f u fS t
      · intro w hwl
        apply hw
        rw [lookup_cons_ite]
        have : (u == e.1) = false := by
          cases hue : u == e.1 with
          | false => rfl
          | true =>
            rw [eq_of_beq hue] at hke
            rw [BEq.refl] at hke
            exact hke
        rw [this]
        simpa using hwl
      · exact (List.nodup_cons.mp hnd).2

/-- An element-free filter is the identity. -/
theorem filter_not_of_filter_nil (p : α → Bool) (l : List α) (h : l.filter p = []) :
    l.filter (fun a => !(p a)) = l := by
  rw [List.filter_eq_self]
  intro a ha
  rw [List.filter_eq_nil_iff] at h
  have := h a ha
  simp at this ⊢
  exact this

end AbsLemmas

/-- Message traces depend only on the message log. -/
theorem userMsgsSql_congr (s s' : SqliteStore) (h : s'.messages = s.messages) (u : String) :
    userMsgsSql s' u = userMsgsSql s u := by
  unfold userMsgsSql
  rw [h]

/-- The invariant transfers along message-preserving steps. -/
theorem sqlInv_frame (s s' : SqliteStore) (hInv : SqlInv s) (hm : s'.messages = s.messages)
    (hn : s.next_id ≤ s'.next_id) (hc : s.clock ≤ s'.clock) : SqlInv s' := by
  obtain ⟨a, b, c2, d⟩ := hInv
  refine ⟨hm ▸ a, hm ▸ b, ?_, ?_⟩
  · intro m hmem
    rw [hm] at hmem
    have := c2 m hmem
    omega
  · intro m hmem
    rw [hm] at hmem
    have := d m hmem
    omega

/-- `set_user_personality` touches only the users table and the clock. -/
theorem set_personality_frame_sql (s : SqliteStore) (u p : String) :
    (Sqlite.set_user_personality s u p).messages = s.messages
    ∧ (Sqlite.set_user_personality s u p).next_id = s.next_id
    ∧ s.clock ≤ (Sqlite.set_user_personality s u p).clock := by
  unfold Sqlite.set_user_personality
  cases h : s.users.lookup u <;> exact ⟨rfl, rfl, Nat.le_succ _⟩

/-- `get_user_personality` touches only the users table and the clock. -/
theorem get_personality_frame_sql (s : SqliteStore) (u : String) :
    (Sqlite.get_user_personality s u).2.messages = s.messages
    ∧ (Sqlite.get_user_personality s u).2.next_id = s.next_id
    ∧ s.clock ≤ (Sqlite.get_user_personality s u).2.clock := by
  unfold Sqlite.get_user_personality
  cases h : s.users.lookup u with
  | some w => exact ⟨rfl, rfl, Nat.le_refl _⟩
  | none => exact ⟨rfl, rfl, Nat.le_succ _⟩

/-- `set_user_metadata` touches only users, metadata and the clock. -/
theorem set_metadata_frame_sql (s : SqliteStore) (u k : String) (v : JVal) :
    (Sqlite.set_user_metadata s u k v).messages = s.messages
    ∧ (Sqlite.set_user_metadata s u k v).next_id = s.next_id
    ∧ s.clock ≤ (Sqlite.set_user_metadata s u k v).clock := by
  unfold Sqlite.set_user_metadata
  obtain ⟨a, b, _, d⟩ := ensure_frame_sql s u none
  exact ⟨a, b, d⟩

/-- Personality assignment keeps every message trace, json variant. -/
theorem userMsgsJson_setPers (j : JsonStore) (u p u2 : String) :
    userMsgsJson (Json.set_user_personality j u p) u2 = userMsgsJson j u2 := by
  unfold Json.set_user_personality userMsgsJson
  cases hu : j.data.lookup u with
  | none =>
    dsimp only
    by_cases h2 : u2 = u
    · subst h2
      rw [lookup_dictSet_self, hu]
      rfl
    · rw [lookup_dictSet_ne _ _ _ _ (beq_eq_false_iff_ne.mpr h2)]
  | some w =>
    dsimp only
    by_cases h2 : u2 = u
    · subst h2
      rw [lookup_dictSet_self, hu]
      rfl
    · rw [lookup_dictSet_ne _ _ _ _ (beq_eq_false_iff_ne.mpr h2)]

/-- A personality read keeps every message trace, json variant. -/
theorem userMsgsJson_getPers (j : JsonStore) (u u2 : String) :
    userMsgsJson (Json.get_user_personality j u).2 u2 = userMsgsJson j u2 := by
  unfold Json.get_user_personality userMsgsJson
  cases hu : j.data.lookup u with
  | some w => rfl
  | none =>
    dsimp only
    by_cases h2 : u2 = u
    · subst h2
      rw [lookup_dictSet_self, hu]
      rfl
    · rw [lookup_dictSet_ne _ _ _ _ (beq_eq_false_iff_ne.mpr h2)]

/-- A metadata write keeps every message trace, json variant. -/
theorem userMsgsJson_setMeta (j : JsonStore) (u k : String) (v : JVal) (u2 : String) :
    userMsgsJson (Json.set_user_metadata j u k v) u2 = userMsgsJson j u2 := by
  unfold Json.set_user_metadata userMsgsJson
  cases hu : j.data.lookup u with
  | none =>
    dsimp only
    by_cases h2 : u2 = u
    · subst h2
      rw [lookup_dictSet_self, hu]
      rfl
    · rw [lookup_dictSet_ne _ _ _ _ (beq_eq_false_iff_ne.mpr h2)]
  | some w =>
    dsimp only
    by_cases h2 : u2 = u
    · subst h2
      rw [lookup_dictSet_self, hu]
      rfl
    · rw [lookup_dictSet_ne _ _ _ _ (beq_eq_false_iff_ne.mpr h2)]

/-- A message append for one user keeps every other user's trace, json. -/
theorem userMsgsJson_add_ne (maxLen : Nat) (j : JsonStore) (u u2 r c : String)
    (un : Option String) (h2 : u2 ≠ u) :
    userMsgsJson (Json.add_message maxLen j u r c un) u2 = userMsgsJson j u2 := by
  have hb : (u2 == u) = false := beq_eq_false_iff_ne.mpr h2
  unfold Json.add_message
  dsimp only
  by_cases h : (un.getD ("")) = ""
  · rw [if_neg (not_not_intro h)]
    dsimp only
    cases hu : j.data.lookup u with
    | some w =>
      dsimp only
      unfold userMsgsJson
      rw [lookup_dictSet_ne _ _ _ _ hb]
    | none =>
      dsimp only
      unfold userMsgsJson
      rw [lookup_dictSet_ne _ _ _ _ hb, lookup_dictSet_ne _ _ _ _ hb]
  · rw [if_pos h]
    dsimp only
    cases hu : (Json.update_username j u (un.getD (""))).data.lookup u with
    | some w =>
      dsimp only
      have hupd := userMsgsJson_update j u (un.getD ("")) u2
      unfold userMsgsJson at hupd ⊢
      rw [lookup_dictSet_ne _ _ _ _ hb]
      exact hupd
    | none =>
      dsimp only
      have hupd := userMsgsJson_update j u (un.getD ("")) u2
      unfold userMsgsJson at hupd ⊢
      rw [lookup_dictSet_ne _ _ _ _ hb, lookup_dictSet_ne _ _ _ _ hb]
      exact hupd

/-- Matching user abstractions give matching lookups. -/
theorem obs_lookup_pair (s : SqliteStore) (j : JsonStore) (habs : usersAbs s = dataAbs j)
    (k : String) :
    (s.users.lookup k).map (fun w => (w.username, w.personality))
      = (j.data.lookup k).map (fun w => (w.username, w.personality)) := by
  unfold usersAbs dataAbs at habs
  exact lookup_map_eq_of_abs (fun w => (w.username, w.personality))
    (fun w => (w.username, w.personality)) s.users j.data habs k

/-- Existence checks agree across backends. -/
theorem obs_exists (s : SqliteStore) (j : JsonStore) (habs : usersAbs s = dataAbs j)
    (k : String) : Sqlite.user_exists s k = Json.user_exists j k := by
  have h := obs_lookup_pair s j habs k
  unfold Sqlite.user_exists Json.user_exists
  cases hs : s.users.lookup k <;> cases hj : j.data.lookup k
  · rfl
  · rw [hs, hj] at h
    simp at h
  · rw [hs, hj] at h
    simp at h
  · rfl

/-- Display-name reads agree across backends. -/
theorem obs_username (s : SqliteStore) (j : JsonStore) (habs : usersAbs s = dataAbs j)
    (k : String) : Sqlite.get_username s k = Json.get_username j k := by
  have h := obs_lookup_pair s j habs k
  unfold Sqlite.get_username Json.get_username
  cases hs : s.users.lookup k <;> cases hj : j.data.lookup k
  · rfl
  · rw [hs, hj] at h
    exact Option.noConfusion h
  · rw [hs, hj] at h
    exact Option.noConfusion h
  · rename_i a b
    rw [hs, hj] at h
    injection h with h1
    rw [Prod.mk.injEq] at h1
    exact h1.1

/-- Personality reads agree across backends. -/
theorem obs_personality (s : SqliteStore) (j : JsonStore) (habs : usersAbs s = dataAbs j)
    (k : String) :
    (Sqlite.get_user_personality s k).1 = (Json.get_user_personality j k).1 := by
  have h := obs_lookup_pair s j habs k
  unfold Sqlite.get_user_personality Json.get_user_personality
  cases hs : s.users.lookup k <;> cases hj : j.data.lookup k
  · rfl
  · rw [hs, hj] at h
    exact Option.noConfusion h
  · rw [hs, hj] at h
    exact Option.noConfusion h
  · rename_i a b
    rw [hs, hj] at h
    injection h with h1
    rw [Prod.mk.injEq] at h1
    exact h1.2

/-- Display-name enumeration agrees across backends. -/
theorem obs_all_usernames (s : SqliteStore) (j : JsonStore)
    (habs : usersAbs s = dataAbs j) :
    Sqlite.get_all_usernames s = Json.get_all_usernames j := by
  have h1 : Sqlite.get_all_usernames s = (usersAbs s).map (fun t => (t.1, t.2.1)) := by
    unfold Sqlite.get_all_usernames usersAbs
    rw [List.map_map]
    apply List.map_congr_left
    intro e _
    rfl
  have h2 : Json.get_all_usernames j = (dataAbs j).map (fun t => (t.1, t.2.1)) := by
    unfold Json.get_all_usernames dataAbs
    rw [List.map_map]
    apply List.map_congr_left
    intro e _
    rfl
  rw [h1, h2, habs]

/-- Shape of the sqlite history read for any flag value. -/
theorem hist_shape_sql (s : SqliteStore) (hInv : SqlInv s) (u : String) (b : Bool) :
    Sqlite.get_conversation_history s u b
      = (if b ∧ ((userMsgsSql s u).map (fun rc => (⟨rc.1, rc.2⟩ : ChatMsg))) ≠ []
         then ((userMsgsSql s u).map (fun rc => (⟨rc.1, rc.2⟩ : ChatMsg))).map
           (prefixUser (Sqlite.get_username s u))
         else (userMsgsSql s u).map (fun rc => (⟨rc.1, rc.2⟩ : ChatMsg))) := by
  unfold Sqlite.get_conversation_history
  dsimp only
  have hsorted : (s.messages.filter (fun m => m.user_id == u)).Sorted Sqlite.tsLe := by
    apply List.Pairwise.imp ?_ (hInv.1.filter _)
    intro a b h
    unfold Sqlite.tsLe
    omega
  rw [List.Sorted.insertionSort_eq hsorted]
  have hM : ((userMsgsSql s u).map (fun rc => (⟨rc.1, rc.2⟩ : ChatMsg)))
      = (s.messages.filter (fun m => m.user_id == u)).map
          (fun m => (⟨m.role, m.content⟩ : ChatMsg)) := by
    unfold userMsgsSql
    rw [List.map_map]
    apply List.map_congr_left
    intro m _
    rfl
  rw [hM]

/-- Shape of the json history read for any flag value. -/
theorem hist_shape_json (j : JsonStore) (u : String) (b : Bool) :
    Json.get_conversation_history j u b
      = (if b ∧ ((userMsgsJson j u).map (fun rc => (⟨rc.1, rc.2⟩ : ChatMsg))) ≠ []
         then ((userMsgsJson j u).map (fun rc => (⟨rc.1, rc.2⟩ : ChatMsg))).map
           (prefixUser (Json.get_username j u))
         else (userMsgsJson j u).map (fun rc => (⟨rc.1, rc.2⟩ : ChatMsg))) := by
  unfold Json.get_conversation_history
  cases hu : j.data.lookup u with
  | none =>
    unfold userMsgsJson
    rw [hu]
    simp
  | some w =>
    have hM : ((userMsgsJson j u).map (fun rc => (⟨rc.1, rc.2⟩ : ChatMsg)))
        = w.messages.map (fun m => (⟨m.role, m.content⟩ : ChatMsg)) := by
      unfold userMsgsJson
      rw [hu]
      dsimp only [Option.elim]
      rw [List.map_map]
      apply List.map_congr_left
      intro m _
      rfl
    rw [hM]

/-- History reads agree across backends (either flag value). -/
theorem obs_history (s : SqliteStore) (j : JsonStore) (hInv : SqlInv s)
    (habs : usersAbs s = dataAbs j)
    (hmsgs : ∀ u2, userMsgsSql s u2 = userMsgsJson j u2) (u : String) (b : Bool) :
    Sqlite.get_conversation_history s u b = Json.get_conversation_history j u b := by
  rw [hist_shape_sql s hInv u b, hist_shape_json j u b, hmsgs u, obs_username s j habs u]

/-- Assignment to a fresh key is an append. -/
theorem dictSet_of_none [BEq κ] (d : List (κ × β)) (k : κ) (v : β)
    (h : d.lookup k = none) : dictSet d k v = d ++ [(k, v)] := by
  unfold dictSet
  rw [h]
  rfl

/-- Assignment to a present key is an in-place rewrite. -/
theorem dictSet_of_some [BEq κ] (d : List (κ × β)) (k : κ) (v w : β)
    (h : d.lookup k = some w) :
    dictSet d k v = d.map (fun e => if e.1 == k then (e.1, v) else e) := by
  unfold dictSet
  rw [h]
  rfl

/-- In-place rewrites keep the key list. -/
theorem map_fst_upd {A : Type} (l : List (String × A)) (u : String) (fS : A → A) :
    (l.map (fun e => if e.1 == u then (e.1, fS e.2) else e)).map Prod.fst
      = l.map Prod.fst := by
  rw [List.map_map]
  apply List.map_congr_left
  intro e _
  cases he : e.1 == u with
  | true => rw [Function.comp_apply, if_pos he]
  | false => rw [Function.comp_apply, if_neg (by simp [he])]

/-- Appending a fresh key keeps keys duplicate-free. -/
theorem nodup_append_key {A : Type} (l : List (String × A)) (u : String) (a : A)
    (hnd : (l.map Prod.fst).Nodup) (h : l.lookup u = none) :
    ((l ++ [(u, a)]).map Prod.fst).Nodup := by
  rw [List.map_append]
  rw [List.nodup_append]
  refine ⟨hnd, by simp, ?_⟩
  intro x hx hmem
  simp at hmem
  rw [hmem] at hx
  exact (lookup_none_iff_key l u).mp h hx

/-- Appending abstraction-equal fresh records keeps abstractions equal. -/
theorem abs_append_pair (l1 : List (String × SUser)) (l2 : List (String × JsonUser))
    (h : l1.map (fun e => (e.1, e.2.username, e.2.personality))
        = l2.map (fun e => (e.1, e.2.username, e.2.personality)))
    (u : String) (aS : SUser) (aJ : JsonUser)
    (hu : aS.username = aJ.username) (hp : aS.personality = aJ.personality) :
    (l1 ++ [(u, aS)]).map (fun e => (e.1, e.2.username, e.2.personality))
      = (l2 ++ [(u, aJ)]).map (fun e => (e.1, e.2.username, e.2.personality)) := by
  rw [List.map_append, List.map_append, h]
  congr 1
  simp [hu, hp]

/-- Equal abstractions give equal key lists. -/
theorem keys_eq_of_abs (l1 : List (String × SUser)) (l2 : List (String × JsonUser))
    (h : l1.map (fun e => (e.1, e.2.username, e.2.personality))
        = l2.map (fun e => (e.1, e.2.username, e.2.personality))) :
    l1.map Prod.fst = l2.map Prod.fst := by
  have h2 := congrArg (List.map Prod.fst) h
  rw [List.map_map, List.map_map] at h2
  calc l1.map Prod.fst
      = l1.map (Prod.fst ∘ (fun e => (e.1, e.2.username, e.2.personality))) := by
        apply List.map_congr_left
        intro e _
        rfl
    _ = l2.map (Prod.fst ∘ (fun e => (e.1, e.2.username, e.2.personality))) := h2
    _ = l2.map Prod.fst := by
        apply List.map_congr_left
        intro e _
        rfl

/-- With duplicate-free keys, a present key determines its unique value. -/
theorem value_eq_of_nodup {A : Type} :
    ∀ (l : List (String × A)), (l.map Prod.fst).Nodup →
      ∀ (u : String) (w : A), l.lookup u = some w →
        ∀ e ∈ l, e.1 = u → e.2 = w
  | [], _, _, _, hw, _, _, _ => by simp at hw
  | e0 :: t, hnd, u, w, hw, e, he, heu => by
    rw [List.map_cons, List.nodup_cons] at hnd
    rw [lookup_cons_ite] at hw
    rcases List.mem_cons.mp he with h1 | h1
    · subst h1
      have : (u == e.1) = true := by rw [heu]; simp
      rw [this] at hw
      simp at hw
      rw [hw]
    · have hne : (u == e0.1) = false := by
        cases hq : u == e0.1 with
        | false => rfl
        | true =>
          exfalso
          apply hnd.1
          rw [← eq_of_beq hq, ← heu]
          exact List.mem_map.mpr ⟨e, h1, rfl⟩
      rw [hne] at hw
      simp at hw
      exact value_eq_of_nodup t hnd.2 u w hw e h1 heu

/-- With duplicate-free keys, writing a value derived from the present value
is an in-place rewrite by its derivation. -/
theorem dictSet_some_eq_upd {A : Type} (l : List (String × A))
    (hnd : (l.map Prod.fst).Nodup) (u : String) (w : A) (hw : l.lookup u = some w)
    (g : A → A) :
    dictSet l u (g w) = l.map (fun e => if e.1 == u then (e.1, g e.2) else e) := by
  rw [dictSet_of_some _ _ _ _ hw]
  apply List.map_congr_left
  intro e he
  cases hke : e.1 == u with
  | true =>
    have hv : e.2 = w := value_eq_of_nodup l hnd u w hw e he (eq_of_beq hke)
    rw [hv]
  | false => rfl

/-- Simulation step: `update_username`. -/
theorem sim_update_username (s : SqliteStore) (j : JsonStore) (h : SimR s j)
    (u n : String) :
    SimR (Sqlite.update_username s u n) (Json.update_username j u n) := by
  obtain ⟨habs, hnd, hmsgs, hinv⟩ := h
  have hpair := obs_lookup_pair s j habs u
  refine ⟨?_, ?_, ?_, ?_⟩
  · unfold usersAbs dataAbs
    unfold usersAbs dataAbs at habs
    unfold Sqlite.update_username Json.update_username
    cases hs : s.users.lookup u <;> cases hj : j.data.lookup u
    · dsimp only
      rw [dictSet_of_none _ _ _ hj]
      exact abs_append_pair s.users j.data habs u _ _ rfl rfl
    · rw [hs, hj] at hpair
      exact Option.noConfusion hpair
    · rw [hs, hj] at hpair
      exact Option.noConfusion hpair
    · rename_i w w2
      dsimp only
      have hkeys : s.users.map Prod.fst = j.data.map Prod.fst :=
        keys_eq_of_abs s.users j.data habs
      have hnd2 : (j.data.map Prod.fst).Nodup := hkeys ▸ hnd
      have heq : dictSet j.data u { w2 with username := n, updated_at := j.clock }
          = j.data.map (fun e =>
              if e.1 == u then
                (e.1, { e.2 with username := n, updated_at := j.clock }) else e) :=
        dictSet_some_eq_upd j.data hnd2 u w2 hj
          (fun b => { b with username := n, updated_at := j.clock })
      rw [heq]
      exact abs_upd_pair (fun w3 => (w3.username, w3.personality))
        (fun w3 => (w3.username, w3.personality)) u
        (fun a => { a with username := n, updated_at := s.clock })
        (fun b => { b with username := n, updated_at := j.clock })
        (fun a b hab => by
          rw [Prod.mk.injEq] at hab ⊢
          exact ⟨rfl, hab.2⟩)
        s.users j.data habs
  · unfold Sqlite.update_username
    cases hs : s.users.lookup u
    · dsimp only
      exact nodup_append_key s.users u _ hnd hs
    · dsimp only
      have hk : ((s.users.map (fun e =>
          if e.1 == u then (e.1, { e.2 with username := n, updated_at := s.clock }) else e)).map
            Prod.fst) = s.users.map Prod.fst :=
        map_fst_upd s.users u (fun a => { a with username := n, updated_at := s.clock })
      rw [hk]
      exact hnd
  · intro u2
    rw [userMsgsSql_congr _ _ (update_username_frame_sql s u n).1 u2, userMsgsJson_update]
    exact hmsgs u2
  · exact sqlInv_frame s _ hinv (update_username_frame_sql s u n).1
      (Nat.le_of_eq (update_username_frame_sql s u n).2.1.symm)
      (update_username_frame_sql s u n).2.2.2

/-- Simulation step: `set_user_personality`. -/
theorem sim_set_personality (s : SqliteStore) (j : JsonStore) (h : SimR s j)
    (u p : String) :
    SimR (Sqlite.set_user_personality s u p) (Json.set_user_personality j u p) := by
  obtain ⟨habs, hnd, hmsgs, hinv⟩ := h
  have hpair := obs_lookup_pair s j habs u
  refine ⟨?_, ?_, ?_, ?_⟩
  · unfold usersAbs dataAbs
    unfold usersAbs dataAbs at habs
    unfold Sqlite.set_user_personality Json.set_user_personality
    cases hs : s.users.lookup u <;> cases hj : j.data.lookup u
    · dsimp only
      rw [dictSet_of_none _ _ _ hj]
      exact abs_append_pair s.users j.data habs u _ _ rfl rfl
    · rw [hs, hj] at hpair
      exact Option.noConfusion hpair
    · rw [hs, hj] at hpair
      exact Option.noConfusion hpair
    · rename_i w w2
      dsimp only
      have hkeys : s.users.map Prod.fst = j.data.map Prod.fst :=
        keys_eq_of_abs s.users j.data habs
      have hnd2 : (j.data.map Prod.fst).Nodup := hkeys ▸ hnd
      have heq : dictSet j.data u { w2 with personality := p, updated_at := j.clock }
          = j.data.map (fun e =>
              if e.1 == u then
                (e.1, { e.2 with personality := p, updated_at := j.clock }) else e) :=
        dictSet_some_eq_upd j.data hnd2 u w2 hj
          (fun b => { b with personality := p, updated_at := j.clock })
      rw [heq]
      exact abs_upd_pair (fun w3 => (w3.username, w3.personality))
        (fun w3 => (w3.username, w3.personality)) u
        (fun a => { a with personality := p, updated_at := s.clock })
        (fun b => { b with personality := p, updated_at := j.clock })
        (fun a b hab => by
          rw [Prod.mk.injEq] at hab ⊢
          exact ⟨hab.1, rfl⟩)
        s.users j.data habs
  · unfold Sqlite.set_user_personality
    cases hs : s.users.lookup u
    · dsimp only
      exact nodup_append_key s.users u _ hnd hs
    · dsimp only
      have hk : ((s.users.map (fun e =>
          if e.1 == u then (e.1, { e.2 with personality := p, updated_at := s.clock }) else e)).map
            Prod.fst) = s.users.map Prod.fst :=
        map_fst_upd s.users u (fun a => { a with personality := p, updated_at := s.clock })
      rw [hk]
      exact hnd
  · intro u2
    rw [userMsgsSql_congr _ _ (set_personality_frame_sql s u p).1 u2, userMsgsJson_setPers]
    exact hmsgs u2
  · exact sqlInv_frame s _ hinv (set_personality_frame_sql s u p).1
      (Nat.le_of_eq (set_personality_frame_sql s u p).2.1.symm)
      (set_personality_frame_sql s u p).2.2

/-- Simulation step: the state effect of `get_user_personality`. -/
theorem sim_get_personality (s : SqliteStore) (j : JsonStore) (h : SimR s j) (u : String) :
    SimR (Sqlite.get_user_personality s u).2 (Json.get_user_personality j u).2 := by
  obtain ⟨habs, hnd, hmsgs, hinv⟩ := h
  have hpair := obs_lookup_pair s j habs u
  refine ⟨?_, ?_, ?_, ?_⟩
  · unfold usersAbs dataAbs
    unfold usersAbs dataAbs at habs
    unfold Sqlite.get_user_personality Json.get_user_personality
    cases hs : s.users.lookup u <;> cases hj : j.data.lookup u
    · dsimp only
      rw [dictSet_of_none _ _ _ hj]
      exact abs_append_pair s.users j.data habs u _ _ rfl rfl
    · rw [hs, hj] at hpair
      exact Option.noConfusion hpair
    · rw [hs, hj] at hpair
      exact Option.noConfusion hpair
    · exact habs
  · unfold Sqlite.get_user_personality
    cases hs : s.users.lookup u
    · dsimp only
      exact nodup_append_key s.users u _ hnd hs
    · exact hnd
  · intro u2
    rw [userMsgsSql_congr _ _ (get_personality_frame_sql s u).1 u2, userMsgsJson_getPers]
    exact hmsgs u2
  · exact sqlInv_frame s _ hinv (get_personality_frame_sql s u).1
      (Nat.le_of_eq (get_personality_frame_sql s u).2.1.symm)
      (get_personality_frame_sql s u).2.2

/-- Abstraction-preserving keyed rewrites keep the abstraction (all values). -/
theorem abs_upd_keep_all {A γ : Type} (f : A → γ) (u : String) (fJ : A → A)
    (h : ∀ b, f (fJ b) = f b) :
    ∀ (l : List (String × A)),
      (l.map (fun e => if e.1 == u then (e.1, fJ e.2) else e)).map (fun e => (e.1, f e.2))
        = l.map (fun e => (e.1, f e.2))
  | [] => rfl
  | e :: t => by
    rw [List.map_cons, List.map_cons, List.map_cons]
    congr 1
    · cases hke : e.1 == u with
      | true =>
        simp only [if_true]
        rw [Prod.mk.injEq]
        exact ⟨rfl, h e.2⟩
      | false => rfl
    · exact abs_upd_keep_all f u fJ h t

/-- Writing an abstraction-equal value at a present key keeps the
abstraction. -/
theorem dictSet_abs_keep {A γ : Type} (f : A → γ) (l : List (String × A)) (u : String)
    (hnd : (l.map Prod.fst).Nodup) (w v : A) (hw : l.lookup u = some w)
    (hfv : f v = f w) :
    (dictSet l u v).map (fun e => (e.1, f e.2)) = l.map (fun e => (e.1, f e.2)) := by
  rw [dictSet_of_some _ _ _ _ hw, List.map_map]
  apply List.map_congr_left
  intro e he
  rw [Function.comp_apply]
  cases hke : e.1 == u with
  | true =>
    have hv : e.2 = w := value_eq_of_nodup l hnd u w hw e he (eq_of_beq hke)
    simp only [if_true]
    rw [Prod.mk.injEq]
    exact ⟨rfl, by rw [hv, hfv]⟩
  | false =>
    simp only [Bool.false_eq_true, if_false]

/-- Assignment at a present key keeps the key list. -/
theorem map_fst_dictSet_some {A : Type} (l : List (String × A)) (u : String) (v w : A)
    (hw : l.lookup u = some w) :
    (dictSet l u v).map Prod.fst = l.map Prod.fst := by
  rw [dictSet_of_some _ _ _ _ hw, List.map_map]
  apply List.map_congr_left
  intro e _
  cases hke : e.1 == u with
  | true => rw [Function.comp_apply, if_pos hke]
  | false => rw [Function.comp_apply, if_neg (by simp [hke])]

/-- After a username update the user is present with the new name (sqlite). -/
theorem sql_update_lookup (s : SqliteStore) (u n : String) :
    ∃ w, (Sqlite.update_username s u n).users.lookup u = some w ∧ w.username = n := by
  unfold Sqlite.update_username
  cases hs : s.users.lookup u with
  | none =>
    dsimp only
    exact ⟨_, by rw [lookup_append_none _ _ _ hs]; exact lookup_singleton_self _ _, rfl⟩
  | some w =>
    dsimp only
    refine ⟨(⟨n, w.personality, w.created_at, s.clock⟩ : SUser), ?_, rfl⟩
    have := lookup_upd s.users u u
      (fun a => { a.2 with username := n, updated_at := s.clock })
    simp only [BEq.refl, if_true, hs] at this
    exact this

/-- After a username update the user is present with the new name (json). -/
theorem json_update_lookup (j : JsonStore) (u n : String) :
    ∃ w, (Json.update_username j u n).data.lookup u = some w ∧ w.username = n := by
  unfold Json.update_username
  cases hj : j.data.lookup u with
  | none =>
    dsimp only
    exact ⟨_, lookup_dictSet_self _ _ _, rfl⟩
  | some w =>
    dsimp only
    exact ⟨_, lookup_dictSet_self _ _ _, rfl⟩

/-- Rows kept by the outer filter survive an inner filter that its predicate
implies. -/
theorem filter_keep_of_imp (p q : α → Bool) (l : List α)
    (himp : ∀ a, q a = true → p a = true) :
    (l.filter p).filter q = l.filter q := by
  induction l with
  | nil => rfl
  | cons a t ih =>
    cases hq : q a with
    | true =>
      have hp := himp a hq
      simp [List.filter_cons, hq, hp, ih]
    | false =>
      cases hp : p a with
      | true => simp [List.filter_cons, hq, hp, ih]
      | false => simp [List.filter_cons, hq, hp, ih]

/-- Filtering away an absent key changes nothing. -/
theorem filter_key_of_none {A : Type} (l : List (String × A)) (u : String)
    (h : l.lookup u = none) : l.filter (fun e => !(e.1 == u)) = l := by
  apply List.filter_eq_self.mpr
  intro e he
  have hk := (lookup_none_iff_key l u).mp h
  cases hke : e.1 == u with
  | false => rfl
  | true =>
    exfalso
    exact hk (by rw [← eq_of_beq hke]; exact List.mem_map.mpr ⟨e, he, rfl⟩)

/-- Any message filtering preserves the sqlite invariant. -/
theorem sqlInv_filter (s : SqliteStore) (hinv : SqlInv s) (p : SRow → Bool) :
    SqlInv { s with messages := s.messages.filter p } := by
  obtain ⟨a, b, c2, d⟩ := hinv
  refine ⟨a.filter p, b.filter p, ?_, ?_⟩
  · intro m hm
    exact c2 m (List.mem_of_mem_filter hm)
  · intro m hm
    exact d m (List.mem_of_mem_filter hm)

/-- Simulation step: `set_user_metadata`. -/
theorem sim_set_metadata (s : SqliteStore) (j : JsonStore) (h : SimR s j)
    (u k : String) (v : JVal) :
    SimR (Sqlite.set_user_metadata s u k v) (Json.set_user_metadata j u k v) := by
  obtain ⟨habs, hnd, hmsgs, hinv⟩ := h
  have hpair := obs_lookup_pair s j habs u
  refine ⟨?_, ?_, ?_, ?_⟩
  · unfold usersAbs dataAbs
    unfold usersAbs dataAbs at habs
    unfold Sqlite.set_user_metadata Json.set_user_metadata Sqlite.ensure_user_exists
    cases hs : s.users.lookup u <;> cases hj : j.data.lookup u
    · dsimp only
      rw [dictSet_of_none _ _ _ hj]
      exact abs_append_pair s.users j.data habs u _ _ rfl rfl
    · rw [hs, hj] at hpair
      exact Option.noConfusion hpair
    · rw [hs, hj] at hpair
      exact Option.noConfusion hpair
    · rename_i w w2
      dsimp only
      have hnd2 : (j.data.map Prod.fst).Nodup :=
        (keys_eq_of_abs s.users j.data habs) ▸ hnd
      have hfv : (fun w3 : JsonUser => (w3.username, w3.personality))
            ({ w2 with metadata := dictSet w2.metadata k v, updated_at := j.clock })
          = (fun w3 : JsonUser => (w3.username, w3.personality)) w2 := rfl
      exact habs.trans (dictSet_abs_keep (fun w3 : JsonUser => (w3.username, w3.personality))
        j.data u hnd2 w2
        ({ w2 with metadata := dictSet w2.metadata k v, updated_at := j.clock }) hj hfv).symm
  · unfold Sqlite.set_user_metadata Sqlite.ensure_user_exists
    cases hs : s.users.lookup u
    · dsimp only
      exact nodup_append_key s.users u _ hnd hs
    · dsimp only
      exact hnd
  · intro u2
    rw [userMsgsSql_congr _ _ (set_metadata_frame_sql s u k v).1 u2, userMsgsJson_setMeta]
    exact hmsgs u2
  · exact sqlInv_frame s _ hinv (set_metadata_frame_sql s u k v).1
      (Nat.le_of_eq (set_metadata_frame_sql s u k v).2.1.symm)
      (set_metadata_frame_sql s u k v).2.2

/-- Simulation step: `reset_user_memory`. -/
theorem sim_reset (s : SqliteStore) (j : JsonStore) (h : SimR s j) (u : String) :
    SimR (Sqlite.reset_user_memory s u) (Json.reset_user_memory j u) := by
  obtain ⟨habs, hnd, hmsgs, hinv⟩ := h
  refine ⟨?_, hnd, ?_, sqlInv_filter s hinv _⟩
  · unfold usersAbs dataAbs
    unfold usersAbs dataAbs at habs
    unfold Sqlite.reset_user_memory Json.reset_user_memory
    cases hj : j.data.lookup u with
    | none =>
      dsimp only
      exact habs
    | some w2 =>
      dsimp only
      have hnd2 : (j.data.map Prod.fst).Nodup :=
        (keys_eq_of_abs s.users j.data habs) ▸ hnd
      have hfv : (fun w3 : JsonUser => (w3.username, w3.personality))
            ({ w2 with messages := [], updated_at := j.clock })
          = (fun w3 : JsonUser => (w3.username, w3.personality)) w2 := rfl
      exact habs.trans (dictSet_abs_keep (fun w3 : JsonUser => (w3.username, w3.personality))
        j.data u hnd2 w2 ({ w2 with messages := [], updated_at := j.clock }) hj hfv).symm
  · intro u2
    by_cases h2 : u2 = u
    · subst h2
      have hs2 : userMsgsSql (Sqlite.reset_user_memory s u2) u2 = [] := by
        unfold userMsgsSql Sqlite.reset_user_memory
        dsimp only
        rw [filter_not_filter (fun m => m.user_id == u2) s.messages]
        rfl
      have hj2 : userMsgsJson (Json.reset_user_memory j u2) u2 = [] := by
        unfold userMsgsJson Json.reset_user_memory
        cases hj : j.data.lookup u2 with
        | none =>
          dsimp only
          rw [hj]
          rfl
        | some w =>
          dsimp only
          rw [lookup_dictSet_self]
          rfl
      rw [hs2]
      exact hj2.symm
    · have hb : ∀ a : SRow, (a.user_id == u2) = true → (!(a.user_id == u)) = true := by
        intro a ha
        rw [eq_of_beq ha, beq_eq_false_iff_ne.mpr h2]
        rfl
      have hs2 : userMsgsSql (Sqlite.reset_user_memory s u) u2 = userMsgsSql s u2 := by
        unfold userMsgsSql Sqlite.reset_user_memory
        dsimp only
        rw [filter_keep_of_imp _ _ _ hb]
      have hj2 : userMsgsJson (Json.reset_user_memory j u) u2 = userMsgsJson j u2 := by
        unfold userMsgsJson Json.reset_user_memory
        cases hj : j.data.lookup u with
        | none => rfl
        | some w =>
          dsimp only
          rw [lookup_dictSet_ne _ _ _ _ (beq_eq_false_iff_ne.mpr h2)]
      rw [hs2, hj2]
      exact hmsgs u2

/-- Simulation step: `delete_user_data`. -/
theorem sim_delete (s : SqliteStore) (j : JsonStore) (h : SimR s j) (u : String) :
    SimR (Sqlite.delete_user_data s u) (Json.delete_user_data j u) := by
  obtain ⟨habs, hnd, hmsgs, hinv⟩ := h
  have hpair := obs_lookup_pair s j habs u
  refine ⟨?_, ?_, ?_, sqlInv_filter s hinv _⟩
  · unfold usersAbs dataAbs
    unfold usersAbs dataAbs at habs
    unfold Sqlite.delete_user_data Json.delete_user_data
    cases hj : j.data.lookup u with
    | none =>
      dsimp only
      have hsn : s.users.lookup u = none := by
        rw [hj] at hpair
        cases hsu : s.users.lookup u with
        | none => rfl
        | some w => rw [hsu] at hpair; exact Option.noConfusion hpair
      rw [filter_key_of_none s.users u hsn]
      exact habs
    | some w =>
      dsimp only
      unfold dictDel
      calc (s.users.filter (fun e => !(e.1 == u))).map
            (fun e => (e.1, e.2.username, e.2.personality))
          = (s.users.map (fun e => (e.1, e.2.username, e.2.personality))).filter
              (fun t2 => !(t2.1 == u)) :=
            filter_key_map s.users (fun w3 => (w3.username, w3.personality)) u
        _ = (j.data.map (fun e => (e.1, e.2.username, e.2.personality))).filter
              (fun t2 => !(t2.1 == u)) := by rw [habs]
        _ = (j.data.filter (fun e => !(e.1 == u))).map
              (fun e => (e.1, e.2.username, e.2.personality)) :=
            (filter_key_map j.data (fun w3 => (w3.username, w3.personality)) u).symm
  · exact hnd.sublist (List.Sublist.map Prod.fst (List.filter_sublist s.users))
  · intro u2
    by_cases h2 : u2 = u
    · subst h2
      have hs2 : userMsgsSql (Sqlite.delete_user_data s u2) u2 = [] := by
        unfold userMsgsSql Sqlite.delete_user_data
        dsimp only
        rw [filter_not_filter (fun m => m.user_id == u2) s.messages]
        rfl
      have hj2 : userMsgsJson (Json.delete_user_data j u2) u2 = [] := by
        unfold userMsgsJson Json.delete_user_data
        cases hj : j.data.lookup u2 with
        | none =>
          dsimp only
          rw [hj]
          rfl
        | some w =>
          dsimp only
          rw [lookup_dictDel_self]
          rfl
      rw [hs2]
      exact hj2.symm
    · have hb : ∀ a : SRow, (a.user_id == u2) = true → (!(a.user_id == u)) = true := by
        intro a ha
        rw [eq_of_beq ha, beq_eq_false_iff_ne.mpr h2]
        rfl
      have hs2 : userMsgsSql (Sqlite.delete_user_data s u) u2 = userMsgsSql s u2 := by
        unfold userMsgsSql Sqlite.delete_user_data
        dsimp only
        rw [filter_keep_of_imp _ _ _ hb]
      have hj2 : userMsgsJson (Json.delete_user_data j u) u2 = userMsgsJson j u2 := by
        unfold userMsgsJson Json.delete_user_data
        cases hj : j.data.lookup u with
        | none => rfl
        | some w =>
          dsimp only
          rw [lookup_dictDel_ne _ _ _ (beq_eq_false_iff_ne.mpr h2)]
      rw [hs2, hj2]
      exact hmsgs u2

/-- A keyed write whose value keeps username and personality keeps the user
abstraction. -/
theorem dictSet_abs_of_fields (l : List (String × JsonUser)) (u : String)
    (hnd : (l.map Prod.fst).Nodup) (w v : JsonUser) (hw : l.lookup u = some w)
    (hu : v.username = w.username) (hpp : v.personality = w.personality) :
    (dictSet l u v).map (fun e => (e.1, e.2.username, e.2.personality))
      = l.map (fun e => (e.1, e.2.username, e.2.personality)) :=
  dictSet_abs_keep (fun w3 : JsonUser => (w3.username, w3.personality)) l u hnd w v hw
    (by rw [Prod.mk.injEq]; exact ⟨hu, hpp⟩)

/-- Simulation step: `add_message`. -/
theorem sim_add (maxLen : Nat) (hm : 0 < maxLen) (s : SqliteStore) (j : JsonStore)
    (h : SimR s j) (u r c : String) (un : Option String) :
    SimR (Sqlite.add_message maxLen s u r c un) (Json.add_message maxLen j u r c un) := by
  obtain ⟨habs, hnd, hmsgs, hinv⟩ := h
  obtain ⟨hInv2, htr, htr2, _, _⟩ := sql_add_analysis maxLen s hinv u r c un
  have hus : (Sqlite.add_message maxLen s u r c un).users
      = (Sqlite.ensure_user_exists
          (if un.getD ("") ≠ "" then Sqlite.update_username s u (un.getD ("")) else s)
          u (some (if un.getD ("") ≠ "" then un.getD ("") else Sqlite.get_username s u))).users := by
    rw [add_message_decomp]
    rfl
  obtain ⟨habs1, hnd1, hmsgs1, hinv1⟩ :=
    sim_update_username s j ⟨habs, hnd, hmsgs, hinv⟩ u (un.getD (""))
  obtain ⟨w1, hw1, hwn1⟩ := sql_update_lookup s u (un.getD (""))
  obtain ⟨w2, hw2, hwn2⟩ := json_update_lookup j u (un.getD (""))
  refine ⟨?_, ?_, ?_, hInv2⟩
  · unfold usersAbs dataAbs
    unfold usersAbs dataAbs at habs habs1
    rw [hus]
    unfold Sqlite.ensure_user_exists Json.add_message
    dsimp only
    by_cases hp : (un.getD ("")) = ""
    · simp only [if_neg (not_not_intro hp)]
      have hpair := obs_lookup_pair s j (by unfold usersAbs dataAbs; exact habs) u
      cases hs : s.users.lookup u <;> cases hj : j.data.lookup u
      · dsimp only
        have hgu : Sqlite.get_username s u = placeholderName u := by
          unfold Sqlite.get_username
          rw [hs]
        have hgj : Json.get_username j u = placeholderName u := by
          unfold Json.get_username
          rw [hj]
        rw [hgu, hgj, ite_self]
        rw [dictSet_of_none _ _ _ hj]
        have hndJ : (j.data.map Prod.fst).Nodup :=
          (keys_eq_of_abs s.users j.data habs) ▸ hnd
        have hlook : (j.data
            ++ [(u, (⟨placeholderName u, ("default"), [], [], j.clock, j.clock⟩ : JsonUser))]).lookup u
            = some (⟨placeholderName u, ("default"), [], [], j.clock, j.clock⟩ : JsonUser) := by
          rw [lookup_append_none _ _ _ hj]
          exact lookup_singleton_self _ _
        have hnd3 := nodup_append_key j.data u
          (⟨placeholderName u, ("default"), [], [], j.clock, j.clock⟩ : JsonUser) hndJ hj
        refine Eq.trans ?_ (dictSet_abs_of_fields _ u hnd3 _ _ hlook ?_ ?_).symm
        · exact abs_append_pair s.users j.data habs u _ _ rfl rfl
        · rfl
        · rfl
      · rw [hs, hj] at hpair
        exact Option.noConfusion hpair
      · rw [hs, hj] at hpair
        exact Option.noConfusion hpair
      · rename_i w w2b
        dsimp only
        have hgu : Sqlite.get_username s u = w.username := by
          unfold Sqlite.get_username
          rw [hs]
        have hndJ : (j.data.map Prod.fst).Nodup :=
          (keys_eq_of_abs s.users j.data habs) ▸ hnd
        rw [hgu]
        by_cases hw0 : w.username = ""
        · rw [if_neg (not_not_intro hw0)]
          refine Eq.trans habs (dictSet_abs_of_fields j.data u hndJ w2b _ hj ?_ ?_).symm
          · rfl
          · rfl
        · rw [if_pos hw0]
          dsimp only
          refine Eq.trans ?_ (dictSet_abs_of_fields j.data u hndJ w2b _ hj ?_ ?_).symm
          · refine Eq.trans (abs_upd_keep (fun w3 : SUser => (w3.username, w3.personality)) u
              (fun a => { a with username := w.username }) s.users ?_ hnd) habs
            intro w' hw'
            rw [hs] at hw'
            injection hw' with he
            rw [← he]
          · rfl
          · rfl
    · simp only [if_pos hp]
      rw [hw1, hw2]
      dsimp only
      have hndJ1 : ((Json.update_username j u (un.getD (""))).data.map Prod.fst).Nodup :=
        (keys_eq_of_abs (Sqlite.update_username s u (un.getD (""))).users
          (Json.update_username j u (un.getD (""))).data habs1) ▸ hnd1
      refine Eq.trans ?_
        (dictSet_abs_of_fields (Json.update_username j u (un.getD (""))).data u hndJ1 w2 _
          hw2 ?_ ?_).symm
      · refine Eq.trans (abs_upd_keep (fun w3 : SUser => (w3.username, w3.personality)) u
          (fun a => { a with username := un.getD ("") })
          (Sqlite.update_username s u (un.getD (""))).users ?_ hnd1) habs1
        intro w' hw'
        rw [hw1] at hw'
        injection hw' with he
        rw [← he]
        dsimp only
        rw [hwn1]
      · rfl
      · rfl
  · rw [hus]
    unfold Sqlite.ensure_user_exists
    by_cases hp : (un.getD ("")) = ""
    · simp only [if_neg (not_not_intro hp)]
      cases hs : s.users.lookup u with
      | none =>
        dsimp only
        exact nodup_append_key s.users u _ hnd hs
      | some w =>
        dsimp only
        have hgu : Sqlite.get_username s u = w.username := by
          unfold Sqlite.get_username
          rw [hs]
        rw [hgu]
        by_cases hw0 : w.username = ""
        · rw [if_neg (not_not_intro hw0)]
          exact hnd
        · rw [if_pos hw0]
          dsimp only
          have hk : ((s.users.map (fun e =>
              if e.1 == u then (e.1, { e.2 with username := w.username }) else e)).map
                Prod.fst) = s.users.map Prod.fst :=
            map_fst_upd s.users u (fun a => { a with username := w.username })
          rw [hk]
          exact hnd
    · simp only [if_pos hp]
      rw [hw1]
      dsimp only
      have hk : (((Sqlite.update_username s u (un.getD (""))).users.map (fun e =>
          if e.1 == u then (e.1, { e.2 with username := un.getD ("") }) else e)).map
            Prod.fst) = (Sqlite.update_username s u (un.getD (""))).users.map Prod.fst :=
        map_fst_upd (Sqlite.update_username s u (un.getD (""))).users u
          (fun a => { a with username := un.getD ("") })
      rw [hk]
      exact hnd1
  · intro u2
    by_cases h2 : u2 = u
    · rw [h2, htr, userMsgsJson_add maxLen hm j u r c un, hmsgs u]
    · rw [htr2 u2 h2, userMsgsJson_add_ne maxLen j u u2 r c un h2]
      exact hmsgs u2

/-- The fresh stores are related. -/
theorem simR_init : SimR sqliteInit jsonInit :=
  ⟨rfl, List.nodup_nil, fun _ => rfl, sqlInv_init⟩

/-- Folding any metadata-read-free operation sequence over related stores
keeps them related. -/
theorem sim_run (maxLen : Nat) (hm : 0 < maxLen) :
    ∀ (ops : List MOp) (s : SqliteStore) (j : JsonStore), SimR s j →
      ops.all (fun o => !o.isGetMeta) = true →
      SimR (ops.foldl (sqlStep maxLen) s) (ops.foldl (jsonStep maxLen) j)
  | [], _, _, h, _ => h
  | o :: t, s, j, h, hall => by
    rw [List.all_cons, Bool.and_eq_true] at hall
    have hstep : SimR (sqlStep maxLen s o) (jsonStep maxLen j o) := by
      cases o with
      | addMsg u r c un => exact sim_add maxLen hm s j h u r c un
      | setPers u p => exact sim_set_personality s j h u p
      | getPers u => exact sim_get_personality s j h u
      | setName u n => exact sim_update_username s j h u n
      | setMeta u k v => exact sim_set_metadata s j h u k v
      | getMeta u k => exact Bool.noConfusion hall.1
      | reset u => exact sim_reset s j h u
      | delete u => exact sim_delete s j h u
    exact sim_run maxLen hm t _ _ hstep hall.2

/-- C2 counterexample: the identical one-operation sequence consisting of a
single metadata read leaves the two variants observably different — the
sqlite variant lazily creates the user row (so `user_exists` returns true)
while the json variant performs no write (so `user_exists` returns false),
refuting interchangeability of the lazy-creation-on-read side effect. -/
theorem c2_counterexample :
    Sqlite.user_exists (runSql 10 [.getMeta ("u1") ("k")]) ("u1") = true
    ∧ Json.user_exists (runJson 10 [.getMeta ("u1") ("k")]) ("u1") = false := ⟨rfl, rfl⟩

/-- C2 (amended): for a positive retention bound, running any identical
operation sequence that contains no metadata read against both storage
variants yields identical results from every read operation afterwards —
`user_exists`, `get_username`, `get_all_usernames`, `get_user_personality`
and `get_conversation_history` (with either flag) all agree. -/
theorem c2_amended (maxLen : Nat) (hm : 0 < maxLen) (ops : List MOp)
    (hall : ops.all (fun o => !o.isGetMeta) = true) :
    (∀ u, Sqlite.user_exists (runSql maxLen ops) u = Json.user_exists (runJson maxLen ops) u)
    ∧ (∀ u, Sqlite.get_username (runSql maxLen ops) u = Json.get_username (runJson maxLen ops) u)
    ∧ Sqlite.get_all_usernames (runSql maxLen ops) = Json.get_all_usernames (runJson maxLen ops)
    ∧ (∀ u, (Sqlite.get_user_personality (runSql maxLen ops) u).1
        = (Json.get_user_personality (runJson maxLen ops) u).1)
    ∧ (∀ u b, Sqlite.get_conversation_history (runSql maxLen ops) u b
        = Json.get_conversation_history (runJson maxLen ops) u b) := by
  have hsim : SimR (runSql maxLen ops) (runJson maxLen ops) :=
    sim_run maxLen hm ops sqliteInit jsonInit simR_init hall
  obtain ⟨habs, hnd, hmsgs, hinv⟩ := hsim
  exact ⟨fun u => obs_exists _ _ habs u,
         fun u => obs_username _ _ habs u,
         obs_all_usernames _ _ habs,
         fun u => obs_personality _ _ habs u,
         fun u b => obs_history _ _ hinv habs hmsgs u b⟩

/-- Witness: the amended C2 applied to the default retention bound and a
concrete two-operation sequence. -/
theorem c2_amended_witness :
    Sqlite.user_exists
        (runSql 10 [.addMsg ("u1") ("user") ("hi") (some ("Al")), .setPers ("u1") ("poetic")]) ("u1")
      = Json.user_exists
        (runJson 10 [.addMsg ("u1") ("user") ("hi") (some ("Al")), .setPers ("u1") ("poetic")]) ("u1") :=
  (c2_amended 10 (by decide)
    [.addMsg ("u1") ("user") ("hi") (some ("Al")), .setPers ("u1") ("poetic")] (by rfl)).1 ("u1")
